import Mathlib

set_option maxHeartbeats 1000000

/-!
Verification development for the core coordination layer of the m3
metric platform: the topology consistency accumulator, the per-shard
aggregator entry map (`map.go`, `entry.go`), and the replicated
message writer (`message_writer.go`). Go state is embedded as explicit
state-passing over Lean structures; machine integers are modelled as
`Int`/`Nat` (no overflow is relevant to the claims below); fallible
methods return `Except`/`Option` errors.
-/

namespace M3

/-! ## Part 1: Topology Consistency Accumulator (TCA)

Modelled from the spec: the accumulator implementation is not part of
the source tree (only its unit tests are), so the state machine below
follows spec sections 3, 4.1 and 6 literally: a placement gives each
host a set of shard assignments with states, a consistency level fixes
per-shard success/failure thresholds, and each `(host, ok or error)`
event advances per-shard success/error tallies.
-/

inductive ShardState where
  | initializing
  | available
  | leaving
  deriving DecidableEq, Repr

inductive ConsistencyLevel where
  | one
  | majority
  | unstrictMajority
  | all
  deriving DecidableEq, Repr

inductive TcaOutcome where
  | pending
  | doneSuccess
  | doneFailure
  deriving DecidableEq, Repr

/-- Modelled from the spec: a placement snapshot (spec section 6):
replication factor, shard count, and per-host shard assignments with
states. -/
structure Placement where
  rf : Nat
  numShards : Nat
  hosts : List (String × List (Nat × ShardState))
  deriving Repr

/-- Modelled from the spec: one per-host response event
`(hostname, ok or error)`. -/
structure TcaEvent where
  hostname : String
  ok : Bool
  deriving Repr

/-- Modelled from the spec (section 4.1, shard-state filter): a shard
assignment counts toward `successes` iff its state is serving for the
level; `Available` always serves, `Leaving` serves for the
availability-preferring levels (`One`, `UnstrictMajority`);
`Initializing` never serves for success. -/
def servingForSuccess (level : ConsistencyLevel) (st : ShardState) : Bool :=
  match st with
  | .available => true
  | .leaving =>
    match level with
    | .one => true
    | .unstrictMajority => true
    | .majority => false
    | .all => false
  | .initializing => false

/-- Modelled from the spec (section 4.1): errors from any serving copy
(`Available` or `Leaving`) count toward `errors`. -/
def servingCopy (st : ShardState) : Bool :=
  match st with
  | .available => true
  | .leaving => true
  | .initializing => false

/-- Modelled from the spec (section 4.1 threshold table): per-shard
success threshold given `rf`, `successes` and `errors`. For
`UnstrictMajority` the majority threshold applies, or any success once
majority is unreachable (fewer than a majority of the `rf` serving
copies can still succeed). -/
def shardSuccess (level : ConsistencyLevel) (rf successes errors : Nat) : Bool :=
  match level with
  | .one => 1 ≤ successes
  | .majority => rf / 2 + 1 ≤ successes
  | .unstrictMajority =>
    rf / 2 + 1 ≤ successes || (rf - errors < rf / 2 + 1 && 1 ≤ successes)
  | .all => rf ≤ successes

/-- Modelled from the spec (section 4.1 threshold table): per-shard
failure condition given `rf` and `errors`. -/
def shardFailure (level : ConsistencyLevel) (rf errors : Nat) : Bool :=
  match level with
  | .one => rf ≤ errors
  | .majority => rf - rf / 2 ≤ errors
  | .unstrictMajority => rf ≤ errors
  | .all => 1 ≤ errors

/-- Per-shard tallies: `(successes, errors)` for each shard id in
`[0, numShards)`, positionally. -/
def TcaTallies := List (Nat × Nat)

/-- Apply one response event to the tally of shard `shardId`: if the
responding host holds the shard, bump `successes` when the response is
ok and the assignment is serving for the level, bump `errors` when the
response is an error and the assignment is a serving copy. -/
def bumpShard (level : ConsistencyLevel) (assignments : List (Nat × ShardState))
    (ok : Bool) (shardId : Nat) (tally : Nat × Nat) : Nat × Nat :=
  match assignments.lookup shardId with
  | none => tally
  | some st =>
    if ok then
      if servingForSuccess level st then (tally.1 + 1, tally.2) else tally
    else
      if servingCopy st then (tally.1, tally.2 + 1) else tally

/-- Apply one event to all shard tallies. A host that is not in the
placement contributes nothing. -/
def tcaApplyEvent (p : Placement) (level : ConsistencyLevel)
    (tallies : List (Nat × Nat)) (ev : TcaEvent) : List (Nat × Nat) :=
  match p.hosts.lookup ev.hostname with
  | none => tallies
  | some assignments =>
    tallies.enum.map fun ti => bumpShard level assignments ev.ok ti.1 ti.2

/-- Modelled from the spec (section 4.1, aggregation to request-level
result): `done-success` when every shard has met its success
threshold; otherwise `done-failure` when any shard has reached the
failure condition; otherwise pending. Success is checked first, so it
wins a tie reached on the same event. -/
def tcaOutcome (p : Placement) (level : ConsistencyLevel)
    (tallies : List (Nat × Nat)) : TcaOutcome :=
  if tallies.all fun t => shardSuccess level p.rf t.1 t.2 then
    .doneSuccess
  else if tallies.any fun t => shardFailure level p.rf t.2 then
    .doneFailure
  else
    .pending

def tcaInitialTallies (p : Placement) : List (Nat × Nat) :=
  (List.range p.numShards).map fun _ => (0, 0)

/-- Run a sequence of events through the accumulator, reporting the
request-level outcome after each event. -/
def tcaOutcomes (p : Placement) (level : ConsistencyLevel)
    (events : List TcaEvent) : List TcaOutcome :=
  (events.foldl
    (fun acc ev =>
      let tallies := tcaApplyEvent p level acc.1 ev
      (tallies, acc.2 ++ [tcaOutcome p level tallies]))
    (tcaInitialTallies p, [])).2

/-- A host owning every shard in `[0, numShards)` in state `st`,
mirroring `tu.ShardsRange(0, numShards-1, st)` in the tests. -/
def fullRange (numShards : Nat) (st : ShardState) : List (Nat × ShardState) :=
  (List.range numShards).map fun i => (i, st)

/-- The placement of the `UnstrictMajority` complex-topology scenario:
RF=3, 30 shards, four full-range hosts with states Initializing,
Available, Available, Leaving. -/
def complexTopoPlacement : Placement :=
  { rf := 3
    numShards := 30
    hosts :=
      [ ("testhost0", fullRange 30 .initializing)
      , ("testhost1", fullRange 30 .available)
      , ("testhost2", fullRange 30 .available)
      , ("testhost3", fullRange 30 .leaving) ] }

def complexTopoEvents : List TcaEvent :=
  [ { hostname := "testhost0", ok := true }
  , { hostname := "testhost1", ok := true }
  , { hostname := "testhost2", ok := false }
  , { hostname := "testhost3", ok := true } ]

/-- The placement of the consistency-level-`All` scenario: RF=3, 30
shards, three identical full-range `Available` hosts. -/
def allLevelPlacement : Placement :=
  { rf := 3
    numShards := 30
    hosts :=
      [ ("testhost0", fullRange 30 .available)
      , ("testhost1", fullRange 30 .available)
      , ("testhost2", fullRange 30 .available) ] }

def allLevelEvents : List TcaEvent :=
  [ { hostname := "testhost0", ok := true }
  , { hostname := "testhost1", ok := true }
  , { hostname := "testhost2", ok := true } ]

/-! ## Part 2: Shard Entry Map — Entry (`entry.go`)

The `Entry` type and its methods are embedded from
`src/aggregator/aggregator/entry.go`. Mutation of the receiver becomes
explicit state passing: a Go method `func (e *Entry) f(...) error`
becomes `f : Entry → ... → Option EntryError × Entry` (plus the
`metricLists` state when elements are touched). Collaborators defined
outside the source tree (the `rate.Limiter`, the metadata types from
`m3metrics`, the metric elements and `metricLists`) are modelled from
the spec, each marked in its doc comment.
-/

namespace Agg

/-- `unaggregated.Type`. `unknownType` stands for any value outside
counter/timer/gauge (hits `errInvalidMetricType` in
`updateMetadatasWithLock`). -/
inductive MetricType where
  | counter
  | batchTimer
  | gauge
  | unknownType
  deriving DecidableEq, Repr

/-- `policy.StoragePolicy`: a resolution (window, precision) and a
retention, all compared structurally (Go compares with `==`). -/
structure StoragePolicy where
  resolutionWindowNanos : Int
  resolutionPrecision : Int
  retentionNanos : Int
  deriving DecidableEq, Repr, Inhabited

/-- `applied.Pipeline`, modelled as an opaque list of operation codes;
`Clone` yields an equal value and `Equal` is structural equality. -/
abbrev AppliedPipeline := List Nat

/-- `metadata.PipelineMetadata`: compressed aggregation id, storage
policies, remaining pipeline. -/
structure PipelineMetadata where
  aggregationID : Nat
  storagePolicies : List StoragePolicy
  pipeline : AppliedPipeline
  deriving DecidableEq, Repr

/-- `metadata.StagedMetadata`. -/
structure StagedMetadata where
  cutoverNanos : Int
  tombstoned : Bool
  pipelines : List PipelineMetadata
  deriving DecidableEq, Repr

abbrev StagedMetadatas := List StagedMetadata

/-- Modelled from the spec: `metadata.DefaultStagedMetadata`
(m3metrics is not under src): cutover 0, not tombstoned, a single
default pipeline metadata (default aggregation id, default — empty —
storage policy list, empty pipeline). -/
def defaultStagedMetadata : StagedMetadata :=
  { cutoverNanos := 0
    tombstoned := false
    pipelines := [{ aggregationID := 0, storagePolicies := [], pipeline := [] }] }

/-- Modelled from the spec: `StagedMetadatas.IsDefault` (m3metrics is
not under src) — the list is exactly the single default staged
metadata. -/
def isDefaultStagedMetadatas (mds : StagedMetadatas) : Bool :=
  mds = [defaultStagedMetadata]

/-- `unaggregated.MetricUnion`; the raw id is a `Nat` and copying an
id yields the same value. -/
structure MetricUnion where
  type : MetricType
  id : Nat
  counterVal : Int
  batchTimerVal : List Int
  gaugeVal : Int
  ownsID : Bool
  deriving DecidableEq, Repr

/-- The stable error identities of `entry.go`/`map.go`, plus carriers
for errors produced by the modelled collaborators (decompression,
element reset, list operations). -/
inductive EntryError where
  | emptyMetadatas
  | noApplicableMetadata
  | noPipelinesInMetadata
  | entryClosed
  | writeValueRateLimitExceeded
  | invalidMetricType
  | metricMapClosed
  | writeNewMetricRateLimitExceeded
  | decompressError
  | elemResetError
  | listsClosed
  | listClosed
  deriving DecidableEq, Repr

/-- Modelled from the spec (section 4.2.1; the `rate` package is not
under src): a token bucket that resets every second of wall clock;
`isAllowed n` deducts `n` tokens when available and denies otherwise;
`reset` changes the rate without dropping in-flight tokens. -/
structure Limiter where
  limitPerSecond : Int
  alignedSecond : Int
  allowed : Int
  deriving DecidableEq, Repr

def nanosPerSecond : Int := 1000000000

def newLimiter (limit : Int) (nowNanos : Int) : Limiter :=
  { limitPerSecond := limit
    alignedSecond := nowNanos / nanosPerSecond
    allowed := limit }

def Limiter.isAllowed (l : Limiter) (nowNanos : Int) (n : Int) : Bool × Limiter :=
  let sec := nowNanos / nanosPerSecond
  let l := if l.alignedSecond < sec then
      { l with alignedSecond := sec, allowed := l.limitPerSecond }
    else l
  if n ≤ l.allowed then (true, { l with allowed := l.allowed - n })
  else (false, l)

def Limiter.reset (l : Limiter) (newLimit : Int) : Limiter :=
  { l with limitPerSecond := newLimit }

/-- The runtime options keys consumed by `entry.go`/`map.go`. -/
structure RuntimeOpts where
  writeValuesPerMetricLimitPerSecond : Int
  writeNewMetricLimitPerShardPerSecond : Int
  writeNewMetricNoLimitWarmupNanos : Int
  deriving DecidableEq, Repr

/-- `aggregationKey`: `(aggregationID, storage policy, applied
pipeline)`; `Equal` is structural equality of all three fields. -/
structure AggregationKey where
  aggregationID : Nat
  storagePolicy : StoragePolicy
  pipeline : AppliedPipeline
  deriving DecidableEq, Repr, Inhabited

/-- `aggregationValue`: a key bound to the metric-list element
(identified by its id in the element heap) holding the aggregation
element. -/
structure AggregationValue where
  key : AggregationKey
  elem : Nat
  deriving DecidableEq, Repr, Inhabited

abbrev AggregationValues := List AggregationValue

/-- `aggregationValues.index`: the first position whose key equals
`k`; Go returns `-1` for absence, modelled as `none`. -/
def aggIndex : AggregationValues → AggregationKey → Option Nat
  | [], _ => none
  | v :: rest, k =>
    if v.key = k then some 0 else (aggIndex rest k).map (· + 1)

/-- `aggregationValues.contains`. -/
def aggContains (vals : AggregationValues) (k : AggregationKey) : Bool :=
  (aggIndex vals k).isSome

/-- Modelled from the spec: a metric element (`elem.go` is not under
src). Reset-on-acquire data plus a tombstone flag and a sample count
(`AddMetric` appends a sample). -/
structure MetricElem where
  metricId : Nat
  policy : StoragePolicy
  aggTypes : List Nat
  pipeline : AppliedPipeline
  tombstoned : Bool
  numSamples : Nat
  deriving DecidableEq, Repr, Inhabited

/-- Modelled from the spec: one shared metric list for a resolution
window (`list.go` is not under src); holds element ids in insertion
order and rejects pushes when closed. -/
structure MetricList where
  listClosed : Bool
  elems : List Nat
  deriving DecidableEq, Repr

/-- Modelled from the spec: the `metricLists` collaborator — lists
keyed by resolution window plus the heap of element objects. -/
structure MetricLists where
  closed : Bool
  lists : List (Int × MetricList)
  elemHeap : List (Nat × MetricElem)
  nextElemId : Nat
  deriving DecidableEq, Repr

/-- Association-list update (a Go map assignment): overwrite the
binding of `k` when present, append it otherwise. -/
def assocSet {α β : Type} [DecidableEq α] : List (α × β) → α → β → List (α × β)
  | [], k, v => [(k, v)]
  | p :: rest, k, v => if p.1 = k then (k, v) :: rest else p :: assocSet rest k v

def heapGetElem (h : List (Nat × MetricElem)) (id : Nat) : MetricElem :=
  (h.lookup id).getD default

/-- Modelled from the spec: `metricLists.FindOrCreate` for a
resolution window — fails when the lists are closed; otherwise the
window's list exists afterwards. -/
def MetricLists.findOrCreate (L : MetricLists) (window : Int) :
    Except EntryError MetricLists :=
  if L.closed then .error .listsClosed
  else match L.lists.lookup window with
    | some _ => .ok L
    | none => .ok { L with lists := L.lists ++ [(window, { listClosed := false, elems := [] })] }

/-- Modelled from the spec: `list.PushBack` — fails when that list is
closed; otherwise allocates a fresh element id, appends it to the
list and stores the element. -/
def MetricLists.pushBack (L : MetricLists) (window : Int) (e : MetricElem) :
    Except EntryError (Nat × MetricLists) :=
  match L.lists.lookup window with
  | none => .error .listClosed
  | some ml =>
    if ml.listClosed then .error .listClosed
    else
      let id := L.nextElemId
      .ok (id,
        { L with
          lists := assocSet L.lists window { ml with elems := ml.elems ++ [id] }
          elemHeap := L.elemHeap ++ [(id, e)]
          nextElemId := id + 1 })

/-- Mark the element bound by `val` as tombstoned
(`MarkAsTombstoned`). -/
def tombstoneElem (L : MetricLists) (elemId : Nat) : MetricLists :=
  { L with
    elemHeap := assocSet L.elemHeap elemId
      { heapGetElem L.elemHeap elemId with tombstoned := true } }

/-- Modelled from the spec: `metricElem.AddMetric` appends the sample
to the element (`elem.go` is not under src; its failure modes are not
modelled, so `addMetricWithLock`'s multi-error is always nil). -/
def addMetricElems (L : MetricLists) (aggs : AggregationValues) : MetricLists :=
  aggs.foldl
    (fun acc val =>
      { acc with
        elemHeap := assocSet acc.elemHeap val.elem
          { heapGetElem acc.elemHeap val.elem with
            numSamples := (heapGetElem acc.elemHeap val.elem).numSamples + 1 } })
    L

/-- The counters of `entryMetrics` that the embedded methods touch. -/
structure EntryMetrics where
  emptyMetadatas : Nat
  noApplicableMetadata : Nat
  noPipelinesInMetadata : Nat
  valueRateLimitExceeded : Nat
  droppedValues : Int
  staleMetadata : Nat
  tombstonedMetadata : Nat
  metadataUpdates : Nat
  deriving DecidableEq, Repr

def emptyEntryMetrics : EntryMetrics :=
  { emptyMetadatas := 0, noApplicableMetadata := 0, noPipelinesInMetadata := 0
    valueRateLimitExceeded := 0, droppedValues := 0, staleMetadata := 0
    tombstonedMetadata := 0, metadataUpdates := 0 }

/-- The collaborators reached through `e.opts`: the id decompressor
(`aggregation.IDDecompressor`, not under src), the fallible element
reset (`metricElem.ResetSetData`, not under src), the default storage
policies, the timer split size and the entry TTL. -/
structure EntryEnv where
  decompress : Nat → Except EntryError (List Nat)
  resetElem : AggregationKey → Option EntryError
  defaultStoragePolicies : List StoragePolicy
  maxTimerBatchSizePerWrite : Nat
  entryTTLNanos : Int

/-- `uninitializedCutoverNanos` (the smallest int64). -/
def uninitializedCutoverNanos : Int := -(2 ^ 63)

/-- The `Entry` state of `entry.go`. -/
structure Entry where
  closed : Bool
  rateLimiter : Option Limiter
  hasDefaultMetadatas : Bool
  cutoverNanos : Int
  numWriters : Int
  lastAccessNanos : Int
  aggregations : AggregationValues
  metrics : EntryMetrics
  deriving DecidableEq, Repr

def Entry.IncWriter (e : Entry) : Entry := { e with numWriters := e.numWriters + 1 }

def Entry.DecWriter (e : Entry) : Entry := { e with numWriters := e.numWriters - 1 }

/-- `resetRateLimiterWithLock`. -/
def Entry.resetRateLimiterWithLock (e : Entry) (now : Int) (ropts : RuntimeOpts) : Entry :=
  let newLimit := ropts.writeValuesPerMetricLimitPerSecond
  if newLimit ≤ 0 then { e with rateLimiter := none }
  else match e.rateLimiter with
    | none => { e with rateLimiter := some (newLimiter newLimit now) }
    | some rl => { e with rateLimiter := some (rl.reset newLimit) }

/-- `ResetSetData`: reopen, reset the limiter from runtime options,
clear the cached metadata state and the writer count, record access. -/
def Entry.ResetSetData (e : Entry) (now : Int) (ropts : RuntimeOpts) : Entry :=
  let e := { e with closed := false }
  let e := e.resetRateLimiterWithLock now ropts
  { e with
    hasDefaultMetadatas := false
    cutoverNanos := uninitializedCutoverNanos
    numWriters := 0
    lastAccessNanos := now }

/-- `SetRuntimeOptions`. -/
def Entry.SetRuntimeOptions (e : Entry) (now : Int) (ropts : RuntimeOpts) : Entry :=
  if e.closed then e else e.resetRateLimiterWithLock now ropts

/-- `applyValueRateLimit`: consult the per-entry limiter; on denial
bump the rate-limit-exceeded and dropped-values counters and fail. -/
def Entry.applyValueRateLimit (e : Entry) (now : Int) (numValues : Int) :
    Option EntryError × Entry :=
  match e.rateLimiter with
  | none => (none, e)
  | some rl =>
    let r := rl.isAllowed now numValues
    if r.1 then (none, { e with rateLimiter := some r.2 })
    else
      (some .writeValueRateLimitExceeded,
        { e with
          rateLimiter := some r.2
          metrics :=
            { e.metrics with
              valueRateLimitExceeded := e.metrics.valueRateLimitExceeded + 1
              droppedValues := e.metrics.droppedValues + numValues } })

/-- The scan of `activeStagedMetadataWithLock`: walk the indexes from
`len - 1` down to `0`, returning the first staged metadata whose
cutover is at or before the given time. -/
def activeStagedScan (mds : StagedMetadatas) (timeNanos : Int) : Nat → Option StagedMetadata
  | 0 => none
  | i + 1 =>
    match mds[i]? with
    | none => activeStagedScan mds timeNanos i
    | some m =>
      if m.cutoverNanos ≤ timeNanos then some m else activeStagedScan mds timeNanos i

/-- `activeStagedMetadataWithLock`: empty input fails with the empty-
metadatas error; otherwise scan from the end and fail with the
no-applicable-metadata error when nothing has cut over. Counter bumps
accompany both failures. -/
def Entry.activeStagedMetadataWithLock (e : Entry) (t : Int) (mds : StagedMetadatas) :
    Except EntryError StagedMetadata × Entry :=
  if mds.length = 0 then
    (.error .emptyMetadatas,
      { e with metrics := { e.metrics with emptyMetadatas := e.metrics.emptyMetadatas + 1 } })
  else match activeStagedScan mds t mds.length with
    | some m => (.ok m, e)
    | none =>
      (.error .noApplicableMetadata,
        { e with metrics :=
            { e.metrics with noApplicableMetadata := e.metrics.noApplicableMetadata + 1 } })

/-- `storagePolicies`: a default (empty) policy list selects the
configured default storage policies
(`policy.IsDefaultStoragePolicies`, not under src, is the emptiness
check). -/
def envStoragePolicies (env : EntryEnv) (policies : List StoragePolicy) :
    List StoragePolicy :=
  if policies.isEmpty then env.defaultStoragePolicies else policies

/-- The `aggregationKey`s derived from a staged metadata: pipelines ×
storage policies in iteration order (before de-duplication). -/
def derivedKeys (env : EntryEnv) (sm : StagedMetadata) : List AggregationKey :=
  sm.pipelines.flatMap fun p =>
    (envStoragePolicies env p.storagePolicies).map fun sp =>
      { aggregationID := p.aggregationID, storagePolicy := sp, pipeline := p.pipeline }

/-- The de-duplicated key sequence the update loop accumulates: the
`seen` keys followed by the first occurrences of the remaining keys
(spec section 4.2.3 step 1). -/
def dedupKeys (seen : List AggregationKey) : List AggregationKey → List AggregationKey
  | [] => seen
  | k :: rest => if k ∈ seen then dedupKeys seen rest else dedupKeys (seen ++ [k]) rest

/-- The key scan of `shouldUpdateMetadatasWithLock`: look every
derived key up in the cached bindings; `none` as soon as one is
missing (Go returns `true` early), otherwise the collected bitset
positions. -/
def shouldUpdateScan (aggs : AggregationValues) : List AggregationKey → Option (List Nat)
  | [] => some []
  | k :: rest =>
    match aggIndex aggs k with
    | none => none
    | some idx =>
      match shouldUpdateScan aggs rest with
      | none => none
      | some idxs => some (idx :: idxs)

/-- `shouldUpdateMetadatasWithLock`: stale metadata never updates (and
counts), newer metadata always updates, equal-cutover metadata updates
iff some derived key is missing from the cached bindings or the
derived keys do not cover every cached binding (`bitset.All`). -/
def Entry.shouldUpdateMetadatasWithLock (e : Entry) (env : EntryEnv) (sm : StagedMetadata) :
    Bool × Entry :=
  if sm.cutoverNanos < e.cutoverNanos then
    (false,
      { e with metrics := { e.metrics with staleMetadata := e.metrics.staleMetadata + 1 } })
  else if e.cutoverNanos < sm.cutoverNanos then (true, e)
  else
    match shouldUpdateScan e.aggregations (derivedKeys env sm) with
    | none => (true, e)
    | some idxs =>
      (!(decide (∀ i, i < e.aggregations.length → i ∈ idxs)), e)

/-- `maybeCopyIDWithLock`: ids are values here, so owning or copying
both yield the metric's id; with existing bindings the first bound
element's id is reused. -/
def Entry.maybeCopyIDWithLock (e : Entry) (L : MetricLists) (metric : MetricUnion) : Nat :=
  if metric.ownsID then metric.id
  else
    match e.aggregations with
    | v :: _ => (heapGetElem L.elemHeap v.elem).metricId
    | [] => metric.id

/-- The binding-construction loop of `updateMetadatasWithLock` over
the derived keys: skip duplicates, reuse existing bindings with an
equal key, otherwise decompress the aggregation id, allocate an
element of the metric's type (clone of the pipeline is the identity on
values), reset it, and push it onto the shared list for the policy's
resolution window. An error propagates immediately; mutations of the
metric lists made before the error remain. -/
def updateLoop (e : Entry) (env : EntryEnv) (mtype : MetricType) (elemID : Nat) :
    List AggregationKey → AggregationValues → MetricLists →
    (Except EntryError AggregationValues) × MetricLists
  | [], newAggs, L => (.ok newAggs, L)
  | k :: rest, newAggs, L =>
    if aggContains newAggs k then updateLoop e env mtype elemID rest newAggs L
    else
      match aggIndex e.aggregations k with
      | some idx =>
        updateLoop e env mtype elemID rest
          (newAggs ++ [e.aggregations.getD idx default]) L
      | none =>
        match env.decompress k.aggregationID with
        | .error err => (.error err, L)
        | .ok aggTypes =>
          if mtype = .unknownType then (.error .invalidMetricType, L)
          else
            match env.resetElem k with
            | some err => (.error err, L)
            | none =>
              match L.findOrCreate k.storagePolicy.resolutionWindowNanos with
              | .error err => (.error err, L)
              | .ok L1 =>
                match L1.pushBack k.storagePolicy.resolutionWindowNanos
                    { metricId := elemID
                      policy := k.storagePolicy
                      aggTypes := aggTypes
                      pipeline := k.pipeline
                      tombstoned := false
                      numSamples := 0 } with
                | .error err => (.error err, L1)
                | .ok r =>
                  updateLoop e env mtype elemID rest
                    (newAggs ++ [{ key := k, elem := r.1 }]) r.2

/-- `updateMetadatasWithLock`: build the new binding set; on any error
the entry is untouched (Go returns before assigning); on success
tombstone the outdated bindings, install the new binding slice, the
new cutover and the default-metadata flag, and count the update. -/
def Entry.updateMetadatasWithLock (e : Entry) (env : EntryEnv) (L : MetricLists)
    (metric : MetricUnion) (hasDefaultMetadatas : Bool) (sm : StagedMetadata) :
    Option EntryError × Entry × MetricLists :=
  let elemID := e.maybeCopyIDWithLock L metric
  match updateLoop e env metric.type elemID (derivedKeys env sm) [] L with
  | (.error err, L1) => (some err, e, L1)
  | (.ok newAggs, L1) =>
    let L2 := e.aggregations.foldl
      (fun acc val => if aggContains newAggs val.key then acc else tombstoneElem acc val.elem)
      L1
    (none,
      { e with
        aggregations := newAggs
        hasDefaultMetadatas := hasDefaultMetadatas
        cutoverNanos := sm.cutoverNanos
        metrics := { e.metrics with metadataUpdates := e.metrics.metadataUpdates + 1 } },
      L2)

/-- `addUntimed` (the inner method): under the shared time lock,
record access time, fail when closed, take the default-metadata fast
path, otherwise select the active staged metadata, handle tombstoned
and pipeline-less metadata, and update the bindings when needed before
appending the sample to every binding. The lock upgrade re-checks
`closed` and `shouldUpdateMetadatasWithLock` exactly as the source
does (in this sequential embedding nothing changes in between). -/
def Entry.addUntimedInner (e : Entry) (env : EntryEnv) (L : MetricLists) (now : Int)
    (metric : MetricUnion) (mds : StagedMetadatas) :
    Option EntryError × Entry × MetricLists :=
  let e := { e with lastAccessNanos := now }
  if e.closed then (some .entryClosed, e, L)
  else
    let hasDefaultMetadatas := isDefaultStagedMetadatas mds
    if e.hasDefaultMetadatas && hasDefaultMetadatas then
      (none, e, addMetricElems L e.aggregations)
    else
      match e.activeStagedMetadataWithLock now mds with
      | (.error err, e1) => (some err, e1, L)
      | (.ok sm, e1) =>
        if sm.tombstoned then
          (none,
            { e1 with metrics :=
                { e1.metrics with tombstonedMetadata := e1.metrics.tombstonedMetadata + 1 } },
            L)
        else if sm.pipelines.length = 0 then
          (some .noPipelinesInMetadata,
            { e1 with metrics :=
                { e1.metrics with
                  noPipelinesInMetadata := e1.metrics.noPipelinesInMetadata + 1 } },
            L)
        else
          match e1.shouldUpdateMetadatasWithLock env sm with
          | (false, e2) => (none, e2, addMetricElems L e2.aggregations)
          | (true, e2) =>
            if e2.closed then (some .entryClosed, e2, L)
            else
              match e2.shouldUpdateMetadatasWithLock env sm with
              | (false, e3) => (none, e3, addMetricElems L e3.aggregations)
              | (true, e3) =>
                match e3.updateMetadatasWithLock env L metric hasDefaultMetadatas sm with
                | (some err, e4, L4) => (some err, e4, L4)
                | (none, e4, L4) => (none, e4, addMetricElems L4 e4.aggregations)

/-- The splitting loop of `writeBatchTimerWithMetadatas`: write the
remaining timer values in chunks of the maximum batch size, stopping
on the first error. Only called with a positive batch size (the
`max · 1` keeps the recursion well-founded and is the identity
there). -/
def Entry.writeTimerChunks (env : EntryEnv) (now : Int) (metric : MetricUnion)
    (mds : StagedMetadatas) (maxB : Nat) :
    List Int → Entry → MetricLists → Option EntryError × Entry × MetricLists
  | [], e, L => (none, e, L)
  | v :: rest, e, L =>
    let step := max maxB 1
    let chunk := (v :: rest).take step
    match e.addUntimedInner env L now { metric with batchTimerVal := chunk } mds with
    | (some err, e1, L1) => (some err, e1, L1)
    | (none, e1, L1) =>
      Entry.writeTimerChunks env now metric mds maxB ((v :: rest).drop step) e1 L1
  termination_by vals => vals.length
  decreasing_by
    simp only [List.length_drop, List.length_cons]
    omega

/-- `writeBatchTimerWithMetadatas`: no split limit writes all timer
values at once, otherwise the batch is split. -/
def Entry.writeBatchTimerWithMetadatas (e : Entry) (env : EntryEnv) (L : MetricLists)
    (now : Int) (metric : MetricUnion) (mds : StagedMetadatas) :
    Option EntryError × Entry × MetricLists :=
  if env.maxTimerBatchSizePerWrite = 0 then e.addUntimedInner env L now metric mds
  else
    Entry.writeTimerChunks env now metric mds env.maxTimerBatchSizePerWrite
      metric.batchTimerVal e L

/-- `Entry.AddUntimed`: apply the per-entry value rate limit first —
the batch length for a batch timer, one for anything else — and only
then write. -/
def Entry.AddUntimed (e : Entry) (env : EntryEnv) (L : MetricLists) (now : Int)
    (metric : MetricUnion) (mds : StagedMetadatas) :
    Option EntryError × Entry × MetricLists :=
  match metric.type with
  | .batchTimer =>
    match e.applyValueRateLimit now metric.batchTimerVal.length with
    | (some err, e1) => (some err, e1, L)
    | (none, e1) => e1.writeBatchTimerWithMetadatas env L now metric mds
  | _ =>
    match e.applyValueRateLimit now 1 with
    | (some err, e1) => (some err, e1, L)
    | (none, e1) => e1.addUntimedInner env L now metric mds

/-- The number of values `Entry.AddUntimed` charges against the value
rate limit: the batch length for a batch timer, one for anything
else. -/
def numValuesOf (metric : MetricUnion) : Int :=
  match metric.type with
  | .batchTimer => metric.batchTimerVal.length
  | _ => 1

/-- `shouldExpire`: no active writers and past the TTL since last
access. -/
def Entry.shouldExpireAt (e : Entry) (env : EntryEnv) (now : Int) : Bool :=
  e.numWriters = 0 && e.lastAccessNanos + env.entryTTLNanos < now

/-- `ShouldExpire`. -/
def Entry.ShouldExpire (e : Entry) (env : EntryEnv) (now : Int) : Bool :=
  if e.closed then false else e.shouldExpireAt env now

/-- `TryExpire`: close the entry, tombstone every bound element and
drop the bindings; fails on an already-closed or not-yet-expired
entry. -/
def Entry.TryExpire (e : Entry) (env : EntryEnv) (L : MetricLists) (now : Int) :
    Bool × Entry × MetricLists :=
  if e.closed then (false, e, L)
  else if !e.shouldExpireAt env now then (false, e, L)
  else
    let L1 := e.aggregations.foldl (fun acc val => tombstoneElem acc val.elem) L
    (true, { e with closed := true, aggregations := [] }, L1)

/-! ### The metric map (`map.go`) -/

/-- `entryKey`: metric type plus the 128-bit murmur3 hash of the raw
id; the hash is modelled as the raw id itself (an injective
stand-in, `hash.Murmur3Hash128` is not under src). -/
structure EntryKey where
  metricType : MetricType
  idHash : Nat
  deriving DecidableEq, Repr

/-- The counters of `metricMapMetrics`. -/
structure MapMetrics where
  newEntries : Nat
  noRateLimitWarmup : Nat
  newMetricRateLimitExceeded : Nat
  droppedNewMetrics : Nat
  deriving DecidableEq, Repr

/-- A fresh `Entry` as produced by the entry pool before
`ResetSetData`. -/
def freshEntry : Entry :=
  { closed := false
    rateLimiter := none
    hasDefaultMetadatas := false
    cutoverNanos := uninitializedCutoverNanos
    numWriters := 0
    lastAccessNanos := 0
    aggregations := []
    metrics := emptyEntryMetrics }

def heapGetEntry (h : List (Nat × Entry)) (id : Nat) : Entry :=
  (h.lookup id).getD freshEntry

/-- The `metricMap` state: the hash map and the ordered entry list
both hold `hashedEntry` values `(key, entry)`; entry objects live in a
heap keyed by an allocation id, standing in for Go pointers. -/
structure MapState where
  closed : Bool
  entries : List (EntryKey × Nat)
  entryList : List (EntryKey × Nat)
  heap : List (Nat × Entry)
  nextEntryId : Nat
  lists : MetricLists
  firstInsertAtNanos : Option Int
  rateLimiter : Option Limiter
  runtimeOpts : RuntimeOpts
  metrics : MapMetrics

/-- `resetRateLimiterWithLock` on the map. -/
def MapState.resetRateLimiterWithLock (s : MapState) (now : Int) (ropts : RuntimeOpts) :
    MapState :=
  let newLimit := ropts.writeNewMetricLimitPerShardPerSecond
  if newLimit ≤ 0 then { s with rateLimiter := none }
  else match s.rateLimiter with
    | none => { s with rateLimiter := some (newLimiter newLimit now) }
    | some rl => { s with rateLimiter := some (rl.reset newLimit) }

/-- `applyNewMetricRateLimitWithLock`: within the warmup window from
the first insert no limit applies (and the warmup counter bumps);
afterwards one token per new metric, with counters on denial. -/
def MapState.applyNewMetricRateLimitWithLock (s : MapState) (now firstInsertAt : Int) :
    Option EntryError × MapState :=
  match s.rateLimiter with
  | none => (none, s)
  | some rl =>
    if now < firstInsertAt + s.runtimeOpts.writeNewMetricNoLimitWarmupNanos then
      (none,
        { s with metrics :=
            { s.metrics with noRateLimitWarmup := s.metrics.noRateLimitWarmup + 1 } })
    else
      let r := rl.isAllowed now 1
      if r.1 then (none, { s with rateLimiter := some r.2 })
      else
        (some .writeNewMetricRateLimitExceeded,
          { s with
            rateLimiter := some r.2
            metrics :=
              { s.metrics with
                newMetricRateLimitExceeded := s.metrics.newMetricRateLimitExceeded + 1
                droppedNewMetrics := s.metrics.droppedNewMetrics + 1 } })

/-- `findOrCreate`: fail when closed; an existing entry only gains a
writer (the re-check after the lock upgrade finds the same state in
this sequential embedding); a new metric passes the new-metric rate
limit, acquires a reset entry, inserts it into both the map and the
ordered list, and gains a writer. -/
def MapState.findOrCreate (s : MapState) (key : EntryKey) (now : Int) :
    Except EntryError Nat × MapState :=
  if s.closed then (.error .metricMapClosed, s)
  else
    match s.entries.lookup key with
    | some id =>
      (.ok id, { s with heap := assocSet s.heap id (heapGetEntry s.heap id).IncWriter })
    | none =>
      let firstInsertAt := s.firstInsertAtNanos.getD now
      let s := { s with firstInsertAtNanos := some firstInsertAt }
      match s.applyNewMetricRateLimitWithLock now firstInsertAt with
      | (some err, s1) => (.error err, s1)
      | (none, s1) =>
        let id := s1.nextEntryId
        let entry := (freshEntry.ResetSetData now s1.runtimeOpts).IncWriter
        (.ok id,
          { s1 with
            entries := s1.entries ++ [(key, id)]
            entryList := s1.entryList ++ [(key, id)]
            heap := assocSet s1.heap id entry
            nextEntryId := id + 1
            metrics := { s1.metrics with newEntries := s1.metrics.newEntries + 1 } })

def entryKeyOf (metric : MetricUnion) : EntryKey :=
  { metricType := metric.type, idHash := metric.id }

/-- `metricMap.AddUntimed`: find or create the entry (which takes a
writer), write through it, and release the writer whether or not the
write failed. -/
def MapState.AddUntimed (s : MapState) (env : EntryEnv) (now : Int)
    (metric : MetricUnion) (mds : StagedMetadatas) : Option EntryError × MapState :=
  let key := entryKeyOf metric
  match s.findOrCreate key now with
  | (.error err, s1) => (some err, s1)
  | (.ok id, s1) =>
    let entry := heapGetEntry s1.heap id
    let r := entry.AddUntimed env s1.lists now metric mds
    let entry1 := r.2.1.DecWriter
    (r.1, { s1 with heap := assocSet s1.heap id entry1, lists := r.2.2 })

/-- The writer count `metricMap.AddUntimed` balances: the target
entry's `numWriters`, observed through the map (zero when the key is
absent). -/
def writerCountOf (s : MapState) (key : EntryKey) : Int :=
  match s.entries.lookup key with
  | some id => (heapGetEntry s.heap id).numWriters
  | none => 0

/-- One removal of `purgeExpired`: `TryExpire` under the entry's
exclusive lock; on success remove the entry from the map and remove
the map's list element from the ordered list. -/
def MapState.purgeStep (s : MapState) (env : EntryEnv) (now : Int)
    (p : EntryKey × Nat) : MapState :=
  let entry := heapGetEntry s.heap p.2
  let r := entry.TryExpire env s.lists now
  let s1 := { s with heap := assocSet s.heap p.2 r.2.1, lists := r.2.2 }
  if r.1 then
    match s1.entries.lookup p.1 with
    | some elemId =>
      { s1 with
        entries := s1.entries.filter fun q => q.1 ≠ p.1
        entryList := s1.entryList.filter fun q => q ≠ (p.1, elemId) }
    | none => s1
  else s1

/-- `deleteExpired` and `purgeExpired`: scan the ordered list for
entries that should expire, then purge them. The batching of the scan,
the expire-buffer flushes every 1024 entries and the soft-deadline
pacing sleeps only affect timing, not the resulting state, in this
sequential embedding, so the scan is modelled as one pass with a
single clock reading. -/
def MapState.deleteExpired (s : MapState) (env : EntryEnv) (now : Int) : MapState :=
  let expired := s.entryList.filter fun p => (heapGetEntry s.heap p.2).ShouldExpire env now
  expired.foldl (fun acc p => acc.purgeStep env now p) s

/-- `Tick` (its map part; the metric-lists tick only reports element
counts). -/
def MapState.Tick (s : MapState) (env : EntryEnv) (now : Int) : MapState :=
  s.deleteExpired env now

/-- `SetRuntimeOptions`: store the options, reset the map's new-metric
limiter, then walk the entry list under the deletion lock updating
every live entry. -/
def MapState.SetRuntimeOptions (s : MapState) (now : Int) (ropts : RuntimeOpts) : MapState :=
  let s1 := ({ s with runtimeOpts := ropts } : MapState).resetRateLimiterWithLock now ropts
  { s1 with
    heap := s1.entryList.foldl
      (fun h p => assocSet h p.2 ((heapGetEntry h p.2).SetRuntimeOptions now ropts)) s1.heap }

/-- `Close`. -/
def MapState.Close (s : MapState) : MapState :=
  if s.closed then s
  else { s with closed := true, lists := { s.lists with closed := true } }

/-- The operations driving the map in claim C3's induction. -/
inductive MapOp where
  | addUntimed (now : Int) (metric : MetricUnion) (mds : StagedMetadatas)
  | tick (now : Int)
  | setRuntimeOptions (now : Int) (ropts : RuntimeOpts)
  | close

def MapState.step (s : MapState) (env : EntryEnv) : MapOp → MapState
  | .addUntimed now metric mds => (s.AddUntimed env now metric mds).2
  | .tick now => s.Tick env now
  | .setRuntimeOptions now ropts => s.SetRuntimeOptions now ropts
  | .close => s.Close

/-- `newMetricMap`: empty map and list, limiter configured from the
runtime options. -/
def initialMapState (ropts : RuntimeOpts) (now : Int) : MapState :=
  let s : MapState :=
    { closed := false
      entries := []
      entryList := []
      heap := []
      nextEntryId := 0
      lists := { closed := false, lists := [], elemHeap := [], nextElemId := 0 }
      firstInsertAtNanos := none
      rateLimiter := none
      runtimeOpts := ropts
      metrics := { newEntries := 0, noRateLimitWarmup := 0
                   newMetricRateLimitExceeded := 0, droppedNewMetrics := 0 } }
  s.resetRateLimiterWithLock now ropts

def runMapOps (env : EntryEnv) (ropts : RuntimeOpts) (startNow : Int)
    (ops : List MapOp) : MapState :=
  ops.foldl (fun s op => s.step env op) (initialMapState ropts startNow)

end Agg

/-! ## Part 3: Replicated Message Writer (`message_writer.go`)

`messageWriterImpl` is embedded as a state structure; the message
objects (`message.go` is not under src) are modelled from the spec
with the fields the writer observes: their metadata, payload and acked
flag. Go pointers into the shared message set become lookups keyed by
the message's metadata, which identifies a message uniquely within one
writer because `msgID` only ever increments. -/

namespace Msg

/-- `metadata`: `(replicatedShardID, message id)`. -/
structure MWMetadata where
  shard : Nat
  id : Nat
  deriving DecidableEq, Repr

/-- Modelled from the spec: the message object (`message.go` is not
under src) — its metadata, the payload it references and the acked
flag that `message.Ack` sets. -/
structure MWMessage where
  meta : MWMetadata
  payload : Nat
  acked : Bool
  deriving DecidableEq, Repr

/-- The counters of `messageWriterMetrics` touched by `Write` and
`Ack`. -/
structure MWMetrics where
  writeAfterCutoff : Nat
  writeBeforeCutover : Nat
  deriving DecidableEq, Repr

/-- `messageWriterImpl`: the monotonic id, the FIFO queue and the acks
map (both holding messages by their metadata), the message objects,
the payload refcounts (`producer.RefCountedMessage` is not under src;
only its refcount is modelled), the cutover/cutoff bounds and the
closed flag. -/
structure MWState where
  replicatedShardID : Nat
  msgID : Nat
  queue : List MWMetadata
  msgs : List (MWMetadata × MWMessage)
  acksMap : List MWMetadata
  payloadRefs : List (Nat × Int)
  cutOverNanos : Int
  cutOffNanos : Int
  isClosed : Bool
  metrics : MWMetrics
  deriving DecidableEq, Repr

def refGet (s : MWState) (payload : Nat) : Int :=
  (s.payloadRefs.lookup payload).getD 0

/-- `RefCountedMessage.IncRef`. -/
def incRef (s : MWState) (payload : Nat) : MWState :=
  { s with payloadRefs := Agg.assocSet s.payloadRefs payload (refGet s payload + 1) }

/-- `isValidWriteWithLock`: a positive cutoff rejects writes at or
after it, a positive cutover rejects writes before it; a zero (unset)
bound is not enforced. Each rejection bumps its invalid-write
counter. -/
def isValidWriteWithLock (s : MWState) (nowNanos : Int) : Bool × MWState :=
  if 0 < s.cutOffNanos && s.cutOffNanos ≤ nowNanos then
    (false,
      { s with metrics :=
          { s.metrics with writeAfterCutoff := s.metrics.writeAfterCutoff + 1 } })
  else if 0 < s.cutOverNanos && nowNanos < s.cutOverNanos then
    (false,
      { s with metrics :=
          { s.metrics with writeBeforeCutover := s.metrics.writeBeforeCutover + 1 } })
  else (true, s)

/-- The rejection condition `Write` actually enforces (the amended
claim C7): each bound applies only when it is positive. -/
def writeInvalid (s : MWState) (nowNanos : Int) : Bool :=
  (0 < s.cutOffNanos && s.cutOffNanos ≤ nowNanos) ||
    (0 < s.cutOverNanos && nowNanos < s.cutOverNanos)

/-- `acks.add`: store the message under its metadata (a Go map set). -/
def acksAdd (acksMap : List MWMetadata) (meta : MWMetadata) : List MWMetadata :=
  if meta ∈ acksMap then acksMap else acksMap ++ [meta]

/-- `Write`: drop invalid writes without surfacing an error;
otherwise increment the payload's refcount and the monotonic `msgID`,
reset a pooled message to `(meta, payload)`, record it in the acks map
and append it to the queue tail. -/
def MWState.Write (s : MWState) (nowNanos : Int) (payload : Nat) : MWState :=
  let v := isValidWriteWithLock s nowNanos
  if !v.1 then v.2
  else
    let s1 := incRef v.2 payload
    let newID := s1.msgID + 1
    let meta : MWMetadata := { shard := s1.replicatedShardID, id := newID }
    { s1 with
      msgID := newID
      msgs := Agg.assocSet s1.msgs meta { meta := meta, payload := payload, acked := false }
      acksMap := acksAdd s1.acksMap meta
      queue := s1.queue ++ [meta] }

def msgGet (s : MWState) (meta : MWMetadata) : MWMessage :=
  (s.msgs.lookup meta).getD { meta := meta, payload := 0, acked := false }

/-- `acks.ack`: a metadata missing from the acks map (never written,
already acked, or removed) returns with no state change; otherwise the
metadata is removed from the map and the stored message's `Ack`
runs, marking it acked. -/
def MWState.Ack (s : MWState) (meta : MWMetadata) : MWState :=
  if meta ∈ s.acksMap then
    let m := msgGet s meta
    { s with
      acksMap := s.acksMap.filter fun q => q ≠ meta
      msgs := Agg.assocSet s.msgs meta { m with acked := true } }
  else s

end Msg

/-! ## Concrete instances used by the closed theorems below -/

namespace Wit

open Agg

def sp0 : StoragePolicy :=
  { resolutionWindowNanos := 1000000000, resolutionPrecision := 0
    retentionNanos := 3600000000000 }

def pm0 : PipelineMetadata :=
  { aggregationID := 5, storagePolicies := [sp0], pipeline := [1] }

def sm0 : StagedMetadata :=
  { cutoverNanos := 10, tombstoned := false, pipelines := [pm0] }

def envOk : EntryEnv :=
  { decompress := fun _ => .ok []
    resetElem := fun _ => none
    defaultStoragePolicies := [sp0]
    maxTimerBatchSizePerWrite := 0
    entryTTLNanos := 1000 }

def envDecompressFail : EntryEnv :=
  { envOk with decompress := fun _ => .error .decompressError }

def L0 : MetricLists :=
  { closed := false, lists := [], elemHeap := [], nextElemId := 0 }

def mCounter : MetricUnion :=
  { type := .counter, id := 7, counterVal := 1, batchTimerVal := []
    gaugeVal := 0, ownsID := true }

def rlDeny : Limiter := { limitPerSecond := 0, alignedSecond := 0, allowed := 0 }

def eLimited : Entry := { freshEntry with rateLimiter := some rlDeny }

/-- The metadata update of the C8 witness, run on a fresh entry. -/
def upd8 : Option EntryError × Entry × MetricLists :=
  freshEntry.updateMetadatasWithLock envOk L0 mCounter false sm0

/-- The failing metadata update of the C4 witness. -/
def upd4 : Option EntryError × Entry × MetricLists :=
  freshEntry.updateMetadatasWithLock envDecompressFail L0 mCounter false sm0

/-- The message writer of the C7 counterexample: both bounds unset
(zero), as `newMessageWriter` initializes them. -/
def mwEx : Msg.MWState :=
  { replicatedShardID := 3, msgID := 0, queue := [], msgs := [], acksMap := []
    payloadRefs := [], cutOverNanos := 0, cutOffNanos := 0, isClosed := false
    metrics := { writeAfterCutoff := 0, writeBeforeCutover := 0 } }

def meta0 : Msg.MWMetadata := { shard := 1, id := 1 }

end Wit

end M3

/-! ## Helper lemmas -/

namespace M3

namespace Agg

theorem lookup_cons_eq {α β : Type} [DecidableEq α] (k : α) (p : α × β)
    (rest : List (α × β)) :
    List.lookup k (p :: rest) = if k = p.1 then some p.2 else List.lookup k rest := by
  by_cases h : k = p.1
  · simp [List.lookup, h]
  · have hb : (k == p.1) = false := beq_eq_false_iff_ne.mpr h
    simp [List.lookup, hb, h]

theorem lookup_assocSet_self {α β : Type} [DecidableEq α]
    (l : List (α × β)) (k : α) (v : β) : (assocSet l k v).lookup k = some v := by
  induction l with
  | nil => simp [assocSet, lookup_cons_eq]
  | cons p rest ih =>
    by_cases h : p.1 = k
    · simp [assocSet, h, lookup_cons_eq]
    · simp [assocSet, h, lookup_cons_eq, Ne.symm h, ih]

theorem lookup_assocSet_ne {α β : Type} [DecidableEq α]
    (l : List (α × β)) (k k' : α) (v : β) (hne : k' ≠ k) :
    (assocSet l k v).lookup k' = l.lookup k' := by
  induction l with
  | nil => simp [assocSet, lookup_cons_eq, hne]
  | cons p rest ih =>
    by_cases h : p.1 = k
    · subst h
      simp [assocSet, lookup_cons_eq, hne]
    · simp [assocSet, h, lookup_cons_eq, ih]

theorem lookup_eq_none_iff {α β : Type} [DecidableEq α]
    (l : List (α × β)) (k : α) : l.lookup k = none ↔ k ∉ l.map Prod.fst := by
  induction l with
  | nil => simp [List.lookup]
  | cons p rest ih =>
    by_cases h : k = p.1
    · simp [lookup_cons_eq, h]
    · simp [lookup_cons_eq, h, ih, Ne.symm h]

theorem lookup_append_single {α β : Type} [DecidableEq α]
    (l : List (α × β)) (k : α) (v : β) (h : l.lookup k = none) :
    (l ++ [(k, v)]).lookup k = some v := by
  induction l with
  | nil => simp [lookup_cons_eq]
  | cons p rest ih =>
    by_cases hk : k = p.1
    · simp [lookup_cons_eq, hk] at h
    · simp only [lookup_cons_eq, hk, if_neg] at h
      simp [lookup_cons_eq, hk, ih h]

end Agg

end M3

/-- C1: At consistency level UnstrictMajority with RF=3 and four
full-range hosts in states Initializing, Available, Available,
Leaving, the response sequence `[h0 ok, h1 ok, h2 err, h3 ok]` leaves
the accumulator pending after each of the first three events and
yields done-success exactly on the fourth: h0's success never counts
(Initializing is not serving), while h1 and h3 together reach the
majority of 2. -/
theorem tca_unstrict_majority_complex_topo :
    M3.tcaOutcomes M3.complexTopoPlacement .unstrictMajority M3.complexTopoEvents
      = [.pending, .pending, .pending, .doneSuccess] := by
  decide

/-- C2: At consistency level All with RF=3 and three full-range
serving hosts, one success response from each of the three hosts
yields done-success (pending until the third response, done-success on
it, with no error), matching the spec's success threshold of RF
successes per shard. -/
theorem tca_all_three_successes :
    M3.tcaOutcomes M3.allLevelPlacement .all M3.allLevelEvents
      = [.pending, .pending, .doneSuccess] := by
  decide

namespace M3

namespace Agg

theorem activeStagedScan_eq_find (mds : StagedMetadatas) (t : Int) :
    ∀ n, n ≤ mds.length →
      activeStagedScan mds t n
        = ((mds.take n).reverse).find? fun m => decide (m.cutoverNanos ≤ t) := by
  intro n
  induction n with
  | zero => intro _; simp [activeStagedScan]
  | succ n ih =>
    intro h
    have hn : n < mds.length := Nat.lt_of_succ_le h
    have hget : mds[n]? = some mds[n] := List.getElem?_eq_getElem hn
    have htake : (mds.take (n + 1)).reverse = mds[n] :: (mds.take n).reverse := by
      rw [List.take_succ, hget]
      simp
    rw [htake]
    rw [List.find?]
    simp only [activeStagedScan, hget]
    by_cases hc : mds[n].cutoverNanos ≤ t
    · simp [hc]
    · simp [hc, ih (Nat.le_of_lt hn)]

end Agg

namespace Msg

theorem mem_acksAdd_self (l : List MWMetadata) (meta : MWMetadata) :
    meta ∈ acksAdd l meta := by
  by_cases h : meta ∈ l
  · simp [acksAdd, h]
  · simp [acksAdd, h]

end Msg

end M3

/-- C4: When `updateMetadatasWithLock` fails partway through building
the new binding set (decompression, allocation, reset, or list push),
the entry's aggregation bindings, `cutoverNanos`, and
`hasDefaultMetadatas` flag are exactly what they were before the call:
the source assigns them only after the whole set is built. -/
theorem update_metadatas_error_atomic (e : M3.Agg.Entry) (env : M3.Agg.EntryEnv)
    (L : M3.Agg.MetricLists) (metric : M3.Agg.MetricUnion) (hdm : Bool)
    (sm : M3.Agg.StagedMetadata) (err : M3.Agg.EntryError) (e' : M3.Agg.Entry)
    (L' : M3.Agg.MetricLists)
    (h : e.updateMetadatasWithLock env L metric hdm sm = (some err, e', L')) :
    e'.aggregations = e.aggregations ∧ e'.cutoverNanos = e.cutoverNanos ∧
      e'.hasDefaultMetadatas = e.hasDefaultMetadatas := by
  rcases hu : M3.Agg.updateLoop e env metric.type (e.maybeCopyIDWithLock L metric)
      (M3.Agg.derivedKeys env sm) [] L with ⟨r, L1⟩
  simp only [M3.Agg.Entry.updateMetadatasWithLock, hu] at h
  cases r with
  | error er =>
    have he : e = e' := congrArg (fun t => t.2.1) h
    rw [← he]
    exact ⟨rfl, rfl, rfl⟩
  | ok newAggs =>
    exact absurd (congrArg (fun t => t.1) h) (by simp)

/-- C4 witness: with a decompressor that fails, the update on a fresh
entry errors and leaves the three fields untouched. -/
theorem update_metadatas_error_atomic_witness :
    (M3.Wit.upd4.2.1).aggregations = M3.Agg.freshEntry.aggregations ∧
      (M3.Wit.upd4.2.1).cutoverNanos = M3.Agg.freshEntry.cutoverNanos ∧
      (M3.Wit.upd4.2.1).hasDefaultMetadatas = M3.Agg.freshEntry.hasDefaultMetadatas :=
  update_metadatas_error_atomic M3.Agg.freshEntry M3.Wit.envDecompressFail M3.Wit.L0
    M3.Wit.mCounter false M3.Wit.sm0 .decompressError M3.Wit.upd4.2.1 M3.Wit.upd4.2.2
    (by decide)

/-- C5: Active staged metadata selection scans the cutover-ascending
sequence from the last element backward and returns the first element
whose `cutoverNanos ≤ now` (the last applicable one); an empty input
fails with the empty-metadatas error, and when every element's
cutover is strictly in the future it fails with the
no-applicable-metadata error. -/
theorem active_staged_metadata_selection (e : M3.Agg.Entry) (t : Int)
    (mds : M3.Agg.StagedMetadatas) :
    (mds = [] →
      (e.activeStagedMetadataWithLock t mds).1 = .error .emptyMetadatas) ∧
    (mds ≠ [] →
      (e.activeStagedMetadataWithLock t mds).1 =
        match mds.reverse.find? (fun m => decide (m.cutoverNanos ≤ t)) with
        | some m => .ok m
        | none => .error .noApplicableMetadata) ∧
    (mds ≠ [] → (∀ m ∈ mds, t < m.cutoverNanos) →
      (e.activeStagedMetadataWithLock t mds).1 = .error .noApplicableMetadata) := by
  have hfind : mds ≠ [] →
      M3.Agg.activeStagedScan mds t mds.length
        = mds.reverse.find? fun m => decide (m.cutoverNanos ≤ t) := by
    intro _
    rw [M3.Agg.activeStagedScan_eq_find mds t mds.length (Nat.le_refl _), List.take_length]
  refine ⟨?_, ?_, ?_⟩
  · intro h
    subst h
    simp [M3.Agg.Entry.activeStagedMetadataWithLock]
  · intro h
    have hlen : mds.length ≠ 0 := fun hc => h (List.length_eq_zero.mp hc)
    simp only [M3.Agg.Entry.activeStagedMetadataWithLock, hlen, if_neg hlen, hfind h]
    cases mds.reverse.find? fun m => decide (m.cutoverNanos ≤ t) <;> simp
  · intro h hall
    have hlen : mds.length ≠ 0 := fun hc => h (List.length_eq_zero.mp hc)
    have hnone : mds.reverse.find? (fun m => decide (m.cutoverNanos ≤ t)) = none := by
      rw [List.find?_eq_none]
      intro m hm
      simp only [decide_eq_true_eq]
      exact not_le.mpr (hall m (List.mem_reverse.mp hm))
    simp only [M3.Agg.Entry.activeStagedMetadataWithLock, hlen, if_neg hlen, hfind h, hnone]
    simp

/-- C5 witness: a two-element sequence where only the first has cut
over selects the first; the empty input and an all-future input
produce the two errors. -/
theorem active_staged_metadata_selection_witness :
    (M3.Agg.freshEntry.activeStagedMetadataWithLock 20
        [M3.Wit.sm0, { M3.Wit.sm0 with cutoverNanos := 30 }]).1 = .ok M3.Wit.sm0 ∧
    (M3.Agg.freshEntry.activeStagedMetadataWithLock 20 []).1 = .error .emptyMetadatas ∧
    (M3.Agg.freshEntry.activeStagedMetadataWithLock 5 [M3.Wit.sm0]).1 =
      .error .noApplicableMetadata := by
  refine ⟨?_, ?_, ?_⟩
  · have h := (active_staged_metadata_selection M3.Agg.freshEntry 20
      [M3.Wit.sm0, { M3.Wit.sm0 with cutoverNanos := 30 }]).2.1 (by decide)
    rw [h]
    rfl
  · exact (active_staged_metadata_selection M3.Agg.freshEntry 20 []).1 rfl
  · exact (active_staged_metadata_selection M3.Agg.freshEntry 5 [M3.Wit.sm0]).2.2
      (by decide) (by decide)

/-- C6: With a per-entry value rate limiter configured,
`Entry.AddUntimed` applies it before any ingestion — charging the
batch length for a batch timer and one for a counter or gauge — and on
denial increments the rate-limit-exceeded counter and the
dropped-values counter by the charged amount, ingests nothing (the
metric lists are untouched and the bindings unchanged), and returns
the write-value-rate-limit-exceeded error. -/
theorem value_rate_limit_denial (e : M3.Agg.Entry) (env : M3.Agg.EntryEnv)
    (L : M3.Agg.MetricLists) (now : Int) (metric : M3.Agg.MetricUnion)
    (mds : M3.Agg.StagedMetadatas) (rl rl' : M3.Agg.Limiter)
    (hrl : e.rateLimiter = some rl)
    (hdeny : rl.isAllowed now (M3.Agg.numValuesOf metric) = (false, rl')) :
    e.AddUntimed env L now metric mds =
      (some .writeValueRateLimitExceeded,
        { e with
          rateLimiter := some rl'
          metrics :=
            { e.metrics with
              valueRateLimitExceeded := e.metrics.valueRateLimitExceeded + 1
              droppedValues := e.metrics.droppedValues + M3.Agg.numValuesOf metric } },
        L) := by
  have happly : ∀ n : Int, rl.isAllowed now n = (false, rl') →
      e.applyValueRateLimit now n =
        (some .writeValueRateLimitExceeded,
          { e with
            rateLimiter := some rl'
            metrics :=
              { e.metrics with
                valueRateLimitExceeded := e.metrics.valueRateLimitExceeded + 1
                droppedValues := e.metrics.droppedValues + n } }) := by
    intro n hn
    simp [M3.Agg.Entry.applyValueRateLimit, hrl, hn]
  rcases metric with ⟨mt, mid, cv, btv, gv, oid⟩
  cases mt <;>
    simp only [M3.Agg.Entry.AddUntimed] <;>
    rw [happly _ (by simpa [M3.Agg.numValuesOf] using hdeny)] <;>
    simp [M3.Agg.numValuesOf]

/-- C6 witness: a zero-budget limiter denies a single counter write,
which surfaces the rate-limit error and bumps both counters. -/
theorem value_rate_limit_denial_witness :
    M3.Wit.eLimited.AddUntimed M3.Wit.envOk M3.Wit.L0 0 M3.Wit.mCounter [M3.Wit.sm0] =
      (some .writeValueRateLimitExceeded,
        { M3.Wit.eLimited with
          rateLimiter := some M3.Wit.rlDeny
          metrics :=
            { M3.Agg.emptyEntryMetrics with
              valueRateLimitExceeded := 1
              droppedValues := 1 } },
        M3.Wit.L0) := by
  have h := value_rate_limit_denial M3.Wit.eLimited M3.Wit.envOk M3.Wit.L0 0
    M3.Wit.mCounter [M3.Wit.sm0] M3.Wit.rlDeny M3.Wit.rlDeny (by rfl) (by decide)
  rw [h]
  rfl

/-- C7 counterexample: with the writer's initial (zero, i.e. unset)
cutoff, `now = 1` satisfies the claim's rejection condition
`now ≥ cutOffNanos`, yet `Write` accepts the message: it increments
`msgID` and appends to the queue instead of rejecting. -/
theorem mw_write_claim_counterexample :
    M3.Wit.mwEx.cutOffNanos ≤ 1 ∧
      (M3.Wit.mwEx.Write 1 7).msgID = M3.Wit.mwEx.msgID + 1 ∧
      (M3.Wit.mwEx.Write 1 7).queue =
        M3.Wit.mwEx.queue ++ [{ shard := 3, id := 1 }] := by
  refine ⟨by decide, ?_, ?_⟩ <;> rfl

/-- C7 (amended): `Write` rejects without surfacing an error — only
bumping an invalid-write counter, leaving the queue, ids, acks map,
messages and refcounts untouched — exactly when a positive cutoff has
passed or a positive cutover has not been reached (a zero bound is
unset and never rejects); otherwise it increments the monotonic
`msgID` (successive accepted writes get strictly increasing ids),
increments the payload's refcount, appends the message to the queue
tail, and records it in the acks map keyed by
`(replicatedShardID, msgID)`. -/
theorem mw_write_spec (s : M3.Msg.MWState) (now : Int) (payload : Nat) :
    (M3.Msg.writeInvalid s now = true →
      ((s.Write now payload).queue = s.queue ∧
        (s.Write now payload).msgID = s.msgID ∧
        (s.Write now payload).acksMap = s.acksMap ∧
        (s.Write now payload).msgs = s.msgs ∧
        (s.Write now payload).payloadRefs = s.payloadRefs ∧
        (s.Write now payload).metrics.writeAfterCutoff
            + (s.Write now payload).metrics.writeBeforeCutover
          = s.metrics.writeAfterCutoff + s.metrics.writeBeforeCutover + 1)) ∧
    (M3.Msg.writeInvalid s now = false →
      ((s.Write now payload).msgID = s.msgID + 1 ∧
        (s.Write now payload).queue =
          s.queue ++ [{ shard := s.replicatedShardID, id := s.msgID + 1 }] ∧
        ({ shard := s.replicatedShardID, id := s.msgID + 1 } : M3.Msg.MWMetadata)
          ∈ (s.Write now payload).acksMap ∧
        M3.Msg.msgGet (s.Write now payload)
            { shard := s.replicatedShardID, id := s.msgID + 1 }
          = { meta := { shard := s.replicatedShardID, id := s.msgID + 1 }
              payload := payload, acked := false } ∧
        M3.Msg.refGet (s.Write now payload) payload
          = M3.Msg.refGet s payload + 1)) := by
  by_cases h1 : (0 < s.cutOffNanos && s.cutOffNanos ≤ now) = true
  · constructor
    · intro _
      simp [M3.Msg.MWState.Write, M3.Msg.isValidWriteWithLock, h1]
      omega
    · intro hv
      rw [M3.Msg.writeInvalid, h1] at hv
      simp at hv
  · by_cases h2 : (0 < s.cutOverNanos && now < s.cutOverNanos) = true
    · constructor
      · intro _
        simp [M3.Msg.MWState.Write, M3.Msg.isValidWriteWithLock, h1, h2]
        omega
      · intro hv
        rw [M3.Msg.writeInvalid, h2] at hv
        simp at hv
    · constructor
      · intro hv
        rw [M3.Msg.writeInvalid, eq_false_of_ne_true h1, eq_false_of_ne_true h2] at hv
        simp at hv
      · intro _
        have hvalid : M3.Msg.isValidWriteWithLock s now = (true, s) := by
          simp [M3.Msg.isValidWriteWithLock, h1, h2]
        have hw : s.Write now payload =
            { s with
              msgID := s.msgID + 1
              queue := s.queue ++ [{ shard := s.replicatedShardID, id := s.msgID + 1 }]
              msgs := M3.Agg.assocSet s.msgs
                { shard := s.replicatedShardID, id := s.msgID + 1 }
                { meta := { shard := s.replicatedShardID, id := s.msgID + 1 }
                  payload := payload, acked := false }
              acksMap := M3.Msg.acksAdd s.acksMap
                { shard := s.replicatedShardID, id := s.msgID + 1 }
              payloadRefs := M3.Agg.assocSet s.payloadRefs payload
                (M3.Msg.refGet s payload + 1) } := by
          simp [M3.Msg.MWState.Write, hvalid, M3.Msg.incRef]
        rw [hw]
        refine ⟨rfl, rfl, M3.Msg.mem_acksAdd_self _ _, ?_, ?_⟩
        · simp only [M3.Msg.msgGet]
          rw [M3.Agg.lookup_assocSet_self]
          rfl
        · simp only [M3.Msg.refGet]
          rw [M3.Agg.lookup_assocSet_self]
          rfl

/-- C7 witness for the amended claim: the counterexample state is
valid for a write at `now = 1`, and the accepted-write facts hold
there. -/
theorem mw_write_spec_witness :
    (M3.Wit.mwEx.Write 1 7).msgID = M3.Wit.mwEx.msgID + 1 ∧
      (M3.Wit.mwEx.Write 1 7).queue =
        M3.Wit.mwEx.queue ++ [{ shard := 3, id := 1 }] ∧
      M3.Msg.refGet (M3.Wit.mwEx.Write 1 7) 7 = M3.Msg.refGet M3.Wit.mwEx 7 + 1 :=
  have h := (mw_write_spec M3.Wit.mwEx 1 7).2 (by decide)
  ⟨h.1, h.2.1, h.2.2.2.2⟩

/-- C10: Acknowledging a metadata absent from the acks map (never
written, already acked, or already removed) is a no-op that modifies
no state and marks no message acked; consequently acking the same
metadata twice has the same effect on the writer's state as acking it
once. -/
theorem mw_ack_missing_noop_idempotent (s : M3.Msg.MWState)
    (meta : M3.Msg.MWMetadata) :
    (meta ∉ s.acksMap → s.Ack meta = s) ∧
      (s.Ack meta).Ack meta = s.Ack meta := by
  constructor
  · intro h
    simp [M3.Msg.MWState.Ack, h]
  · by_cases h : meta ∈ s.acksMap
    · have h2 : meta ∉ (s.Ack meta).acksMap := by
        simp [M3.Msg.MWState.Ack, h, List.mem_filter]
      conv_lhs => rw [M3.Msg.MWState.Ack]
      rw [if_neg h2]
    · have h1 : s.Ack meta = s := by
        simp [M3.Msg.MWState.Ack, h]
      rw [h1, h1]

/-- C10 witness: on a writer with an empty acks map, acking is a
no-op and doubly acking equals acking once. -/
theorem mw_ack_missing_noop_idempotent_witness :
    M3.Wit.mwEx.Ack M3.Wit.meta0 = M3.Wit.mwEx ∧
      (M3.Wit.mwEx.Ack M3.Wit.meta0).Ack M3.Wit.meta0 = M3.Wit.mwEx.Ack M3.Wit.meta0 :=
  have h := mw_ack_missing_noop_idempotent M3.Wit.mwEx M3.Wit.meta0
  ⟨h.1 (by decide), h.2⟩

namespace M3

namespace Agg

theorem applyValueRateLimit_numWriters (e : Entry) (now n : Int) :
    ((e.applyValueRateLimit now n).2).numWriters = e.numWriters := by
  rcases h : e.rateLimiter with _ | rl
  · simp [Entry.applyValueRateLimit, h]
  · simp only [Entry.applyValueRateLimit, h]
    split <;> rfl

theorem activeStaged_numWriters (e : Entry) (t : Int) (mds : StagedMetadatas) :
    ((e.activeStagedMetadataWithLock t mds).2).numWriters = e.numWriters := by
  simp only [Entry.activeStagedMetadataWithLock]
  split
  · rfl
  · split <;> rfl

theorem shouldUpdate_numWriters (e : Entry) (env : EntryEnv) (sm : StagedMetadata) :
    ((e.shouldUpdateMetadatasWithLock env sm).2).numWriters = e.numWriters := by
  simp only [Entry.shouldUpdateMetadatasWithLock]
  split
  · rfl
  · split
    · rfl
    · split <;> rfl

theorem updateMetadatas_numWriters (e : Entry) (env : EntryEnv) (L : MetricLists)
    (metric : MetricUnion) (hdm : Bool) (sm : StagedMetadata) :
    ((e.updateMetadatasWithLock env L metric hdm sm).2.1).numWriters = e.numWriters := by
  rcases hu : updateLoop e env metric.type (e.maybeCopyIDWithLock L metric)
      (derivedKeys env sm) [] L with ⟨r, L1⟩
  simp only [Entry.updateMetadatasWithLock, hu]
  cases r <;> rfl

theorem addUntimedInner_numWriters (e : Entry) (env : EntryEnv) (L : MetricLists)
    (now : Int) (metric : MetricUnion) (mds : StagedMetadatas) :
    ((e.addUntimedInner env L now metric mds).2.1).numWriters = e.numWriters := by
  simp only [Entry.addUntimedInner]
  split
  · rfl
  · split
    · rfl
    · split
      · rename_i err e1 heq
        have : e1 = ({ e with lastAccessNanos := now }.activeStagedMetadataWithLock
            now mds).2 := (congrArg Prod.snd heq).symm
        simp [this, activeStaged_numWriters]
      · rename_i sm e1 heq
        have he1 : e1 = ({ e with lastAccessNanos := now }.activeStagedMetadataWithLock
            now mds).2 := (congrArg Prod.snd heq).symm
        have hn1 : e1.numWriters = e.numWriters := by
          rw [he1, activeStaged_numWriters]
        split
        · simpa using hn1
        · split
          · simpa using hn1
          · split
            · rename_i e2 heq2
              have : e2 = (e1.shouldUpdateMetadatasWithLock env sm).2 :=
                (congrArg Prod.snd heq2).symm
              simp [this, shouldUpdate_numWriters, hn1]
            · rename_i e2 heq2
              have hn2 : e2.numWriters = e.numWriters := by
                have : e2 = (e1.shouldUpdateMetadatasWithLock env sm).2 :=
                  (congrArg Prod.snd heq2).symm
                rw [this, shouldUpdate_numWriters, hn1]
              split
              · simpa using hn2
              · split
                · rename_i e3 heq3
                  have hn3 : e3.numWriters = e.numWriters := by
                    have : e3 = (e2.shouldUpdateMetadatasWithLock env sm).2 :=
                      (congrArg Prod.snd heq3).symm
                    rw [this, shouldUpdate_numWriters, hn2]
                  simpa using hn3
                · rename_i e3 heq3
                  have hn3 : e3.numWriters = e.numWriters := by
                    have : e3 = (e2.shouldUpdateMetadatasWithLock env sm).2 :=
                      (congrArg Prod.snd heq3).symm
                    rw [this, shouldUpdate_numWriters, hn2]
                  split
                  · rename_i err e4 L4 heq4
                    have : e4 = (e3.updateMetadatasWithLock env L metric
                        (isDefaultStagedMetadatas mds) sm).2.1 :=
                      (congrArg (fun t => t.2.1) heq4).symm
                    simp [this, updateMetadatas_numWriters, hn3]
                  · rename_i e4 L4 heq4
                    have : e4 = (e3.updateMetadatasWithLock env L metric
                        (isDefaultStagedMetadatas mds) sm).2.1 :=
                      (congrArg (fun t => t.2.1) heq4).symm
                    simp [this, updateMetadatas_numWriters, hn3]

end Agg

end M3

namespace M3

namespace Agg

theorem writeTimerChunks_numWriters (env : EntryEnv) (now : Int) (metric : MetricUnion)
    (mds : StagedMetadatas) (maxB : Nat) :
    ∀ (n : Nat) (vals : List Int), vals.length ≤ n → ∀ (e : Entry) (L : MetricLists),
      ((Entry.writeTimerChunks env now metric mds maxB vals e L).2.1).numWriters
        = e.numWriters := by
  intro n
  induction n with
  | zero =>
    intro vals hlen e L
    have : vals = [] := List.length_eq_zero.mp (Nat.le_zero.mp hlen)
    subst this
    simp [Entry.writeTimerChunks]
  | succ n ih =>
    intro vals hlen e L
    cases vals with
    | nil => simp [Entry.writeTimerChunks]
    | cons v rest =>
      rw [Entry.writeTimerChunks]
      split
      · rename_i err e1 L1 heq
        have : e1 = (e.addUntimedInner env L now
            { metric with batchTimerVal := (v :: rest).take (max maxB 1) } mds).2.1 :=
          (congrArg (fun t => t.2.1) heq).symm
        simp [this, addUntimedInner_numWriters]
      · rename_i e1 L1 heq
        have he1 : e1 = (e.addUntimedInner env L now
            { metric with batchTimerVal := (v :: rest).take (max maxB 1) } mds).2.1 :=
          (congrArg (fun t => t.2.1) heq).symm
        have hdrop : ((v :: rest).drop (max maxB 1)).length ≤ n := by
          have h1 : 1 ≤ max maxB 1 := Nat.le_max_right _ _
          simp only [List.length_cons] at hlen
          simp only [List.length_drop, List.length_cons]
          generalize max maxB 1 = m at h1
          omega
        rw [ih _ hdrop, he1, addUntimedInner_numWriters]

theorem writeBatchTimer_numWriters (e : Entry) (env : EntryEnv) (L : MetricLists)
    (now : Int) (metric : MetricUnion) (mds : StagedMetadatas) :
    ((e.writeBatchTimerWithMetadatas env L now metric mds).2.1).numWriters
      = e.numWriters := by
  simp only [Entry.writeBatchTimerWithMetadatas]
  split
  · exact addUntimedInner_numWriters ..
  · exact writeTimerChunks_numWriters env now metric mds _ _ metric.batchTimerVal
      (Nat.le_refl _) e L

theorem addUntimed_numWriters (e : Entry) (env : EntryEnv) (L : MetricLists)
    (now : Int) (metric : MetricUnion) (mds : StagedMetadatas) :
    ((e.AddUntimed env L now metric mds).2.1).numWriters = e.numWriters := by
  rcases metric with ⟨mt, mid, cv, btv, gv, oid⟩
  cases mt <;> simp only [Entry.AddUntimed] <;> split
  case mk.counter.h_1 e1 heq =>
    have : e1 = (e.applyValueRateLimit now 1).2 := (congrArg Prod.snd heq).symm
    simp [this, applyValueRateLimit_numWriters]
  case mk.counter.h_2 e1 heq =>
    have : e1 = (e.applyValueRateLimit now 1).2 := (congrArg Prod.snd heq).symm
    rw [addUntimedInner_numWriters, this, applyValueRateLimit_numWriters]
  case mk.batchTimer.h_1 e1 heq =>
    have : e1 = (e.applyValueRateLimit now _).2 := (congrArg Prod.snd heq).symm
    simp [this, applyValueRateLimit_numWriters]
  case mk.batchTimer.h_2 e1 heq =>
    have : e1 = (e.applyValueRateLimit now _).2 := (congrArg Prod.snd heq).symm
    rw [writeBatchTimer_numWriters, this, applyValueRateLimit_numWriters]
  case mk.gauge.h_1 e1 heq =>
    have : e1 = (e.applyValueRateLimit now 1).2 := (congrArg Prod.snd heq).symm
    simp [this, applyValueRateLimit_numWriters]
  case mk.gauge.h_2 e1 heq =>
    have : e1 = (e.applyValueRateLimit now 1).2 := (congrArg Prod.snd heq).symm
    rw [addUntimedInner_numWriters, this, applyValueRateLimit_numWriters]
  case mk.unknownType.h_1 e1 heq =>
    have : e1 = (e.applyValueRateLimit now 1).2 := (congrArg Prod.snd heq).symm
    simp [this, applyValueRateLimit_numWriters]
  case mk.unknownType.h_2 e1 heq =>
    have : e1 = (e.applyValueRateLimit now 1).2 := (congrArg Prod.snd heq).symm
    rw [addUntimedInner_numWriters, this, applyValueRateLimit_numWriters]

end Agg

end M3

namespace M3

namespace Agg

theorem heapGetEntry_assocSet_self (h : List (Nat × Entry)) (id : Nat) (e : Entry) :
    heapGetEntry (assocSet h id e) id = e := by
  simp [heapGetEntry, lookup_assocSet_self]

theorem resetSetData_numWriters (e : Entry) (now : Int) (ropts : RuntimeOpts) :
    (e.ResetSetData now ropts).numWriters = 0 := by
  simp only [Entry.ResetSetData, Entry.resetRateLimiterWithLock]

theorem applyNewMetricRateLimit_entries_heap (s : MapState) (now fi : Int) :
    ((s.applyNewMetricRateLimitWithLock now fi).2).entries = s.entries ∧
      ((s.applyNewMetricRateLimitWithLock now fi).2).heap = s.heap := by
  simp only [MapState.applyNewMetricRateLimitWithLock]
  split
  · exact ⟨rfl, rfl⟩
  · split
    · exact ⟨rfl, rfl⟩
    · split <;> exact ⟨rfl, rfl⟩


theorem findOrCreate_error (s : MapState) (key : EntryKey) (now : Int)
    (err : EntryError) (s1 : MapState)
    (h : s.findOrCreate key now = (.error err, s1)) :
    s1.entries = s.entries ∧ s1.heap = s.heap := by
  simp only [MapState.findOrCreate] at h
  split at h
  · rw [Prod.mk.injEq] at h
    obtain ⟨-, rfl⟩ := h
    exact ⟨rfl, rfl⟩
  · split at h
    · exact absurd (congrArg Prod.fst h) (by simp)
    · split at h
      · rename_i err2 s2 heq
        rw [Prod.mk.injEq] at h
        obtain ⟨-, rfl⟩ := h
        have hpre := applyNewMetricRateLimit_entries_heap { s with firstInsertAtNanos := some (s.firstInsertAtNanos.getD now) } now (s.firstInsertAtNanos.getD now)
        rw [heq] at hpre
        exact hpre
      · exact absurd (congrArg Prod.fst h) (by simp)

theorem findOrCreate_ok (s : MapState) (key : EntryKey) (now : Int)
    (id : Nat) (s1 : MapState)
    (h : s.findOrCreate key now = (.ok id, s1)) :
    s1.entries.lookup key = some id ∧
      (heapGetEntry s1.heap id).numWriters = writerCountOf s key + 1 := by
  simp only [MapState.findOrCreate] at h
  split at h
  · exact absurd (congrArg Prod.fst h) (by simp)
  · split at h
    · rename_i id0 hl
      rw [Prod.mk.injEq] at h
      obtain ⟨h1, rfl⟩ := h
      have hid : id0 = id := by simpa using h1
      subst hid
      refine ⟨hl, ?_⟩
      rw [heapGetEntry_assocSet_self]
      simp [Entry.IncWriter, writerCountOf, hl]
    · rename_i hl
      split at h
      · exact absurd (congrArg Prod.fst h) (by simp)
      · rename_i s2 heq
        rw [Prod.mk.injEq] at h
        obtain ⟨h1, rfl⟩ := h
        have hid : s2.nextEntryId = id := by simpa using h1
        have hpre := applyNewMetricRateLimit_entries_heap { s with firstInsertAtNanos := some (s.firstInsertAtNanos.getD now) } now (s.firstInsertAtNanos.getD now)
        rw [heq] at hpre
        have h2 : s2.entries.lookup key = none := by
          rw [hpre.1]
          exact hl
        constructor
        · show List.lookup key (s2.entries ++ [(key, s2.nextEntryId)]) = some id
          rw [hid]
          exact lookup_append_single _ _ _ h2
        · show (heapGetEntry (assocSet s2.heap s2.nextEntryId ((freshEntry.ResetSetData now s2.runtimeOpts).IncWriter)) id).numWriters = writerCountOf s key + 1
          rw [← hid, heapGetEntry_assocSet_self]
          have hw : writerCountOf s key = 0 := by
            simp [writerCountOf, hl]
          simp [Entry.IncWriter, resetSetData_numWriters, hw]

end Agg

end M3

/-- C9: Every `metricMap.AddUntimed` leaves the target entry's writer
count unchanged overall: `findOrCreate` increments it exactly once on
every success path (found under the shared lock, found on re-check, or
newly inserted, where the reset entry starts at zero writers) and
`AddUntimed` decrements it exactly once afterward, whether or not the
entry-level write returned an error; when `findOrCreate` itself fails
no entry was touched, so the count observed through the map is always
preserved. -/
theorem map_add_untimed_writer_balance (s : M3.Agg.MapState) (env : M3.Agg.EntryEnv)
    (now : Int) (metric : M3.Agg.MetricUnion) (mds : M3.Agg.StagedMetadatas) :
    M3.Agg.writerCountOf (s.AddUntimed env now metric mds).2 (M3.Agg.entryKeyOf metric)
      = M3.Agg.writerCountOf s (M3.Agg.entryKeyOf metric) := by
  simp only [M3.Agg.MapState.AddUntimed]
  split
  · rename_i err s1 heq
    obtain ⟨he, hh⟩ := M3.Agg.findOrCreate_error s _ now err s1 heq
    simp [M3.Agg.writerCountOf, he, hh]
  · rename_i id s1 heq
    obtain ⟨hl, hn⟩ := M3.Agg.findOrCreate_ok s _ now id s1 heq
    simp only [M3.Agg.writerCountOf, hl]
    rw [M3.Agg.heapGetEntry_assocSet_self]
    simp only [M3.Agg.Entry.DecWriter]
    rw [M3.Agg.addUntimed_numWriters, hn]
    show M3.Agg.writerCountOf s (M3.Agg.entryKeyOf metric) + 1 - 1
      = M3.Agg.writerCountOf s (M3.Agg.entryKeyOf metric)
    omega

namespace M3

namespace Agg

theorem aggIndex_eq_none_iff (vals : AggregationValues) (k : AggregationKey) :
    aggIndex vals k = none ↔ k ∉ vals.map (fun v => v.key) := by
  induction vals with
  | nil => simp [aggIndex]
  | cons v rest ih =>
    by_cases h : v.key = k
    · simp [aggIndex, h]
    · simp [aggIndex, h, Option.map_eq_none', ih, Ne.symm h]

theorem aggContains_iff (vals : AggregationValues) (k : AggregationKey) :
    aggContains vals k = true ↔ k ∈ vals.map (fun v => v.key) := by
  rw [aggContains, Option.isSome_iff_ne_none, Ne, aggIndex_eq_none_iff, not_not]

theorem aggIndex_some_bounds (vals : AggregationValues) (k : AggregationKey) :
    ∀ i, aggIndex vals k = some i → i < vals.length ∧ (vals.getD i default).key = k := by
  induction vals with
  | nil => intro i h; simp [aggIndex] at h
  | cons v rest ih =>
    intro i h
    by_cases hv : v.key = k
    · simp only [aggIndex, if_pos hv] at h
      obtain rfl : (0 : Nat) = i := Option.some.inj h
      simpa using hv
    · simp only [aggIndex, if_neg hv] at h
      rcases hj : aggIndex rest k with _ | j
      · rw [hj] at h; simp at h
      · rw [hj] at h
        simp only [Option.map_some'] at h
        obtain rfl : j + 1 = i := Option.some.inj h
        obtain ⟨hb, hk⟩ := ih j hj
        constructor
        · simpa using hb
        · simpa using hk

theorem aggIndex_self_of_nodup (vals : AggregationValues)
    (hnd : (vals.map (fun v => v.key)).Nodup) :
    ∀ j, j < vals.length → aggIndex vals ((vals.getD j default).key) = some j := by
  induction vals with
  | nil => intro j hj; simp at hj
  | cons v rest ih =>
    simp only [List.map_cons, List.nodup_cons] at hnd
    obtain ⟨hnv, hnrest⟩ := hnd
    intro j hj
    cases j with
    | zero => simp [aggIndex]
    | succ j =>
      have hjr : j < rest.length := by simpa using hj
      have hkey : ((rest.getD j default).key) ∈ rest.map (fun v => v.key) := by
        apply List.mem_map_of_mem
        rw [List.getD_eq_getElem rest _ hjr]
        exact List.getElem_mem hjr
      have hne : v.key ≠ (rest.getD j default).key := fun he => hnv (he ▸ hkey)
      simp only [List.getD_cons_succ, aggIndex, if_neg hne, ih hnrest j hjr,
        Option.map_some']

theorem dedupKeys_nodup : ∀ (ks seen : List AggregationKey), seen.Nodup →
    (dedupKeys seen ks).Nodup := by
  intro ks
  induction ks with
  | nil => intro seen h; simpa [dedupKeys] using h
  | cons k rest ih =>
    intro seen h
    by_cases hm : k ∈ seen
    · rw [dedupKeys, if_pos hm]
      exact ih seen h
    · rw [dedupKeys, if_neg hm]
      refine ih _ ?_
      simp [List.nodup_append, h, hm, List.Disjoint]
      intro a ha hak
      exact hm (hak ▸ ha)

theorem dedupKeys_mem : ∀ (ks seen : List AggregationKey) (a : AggregationKey),
    a ∈ dedupKeys seen ks ↔ a ∈ seen ∨ a ∈ ks := by
  intro ks
  induction ks with
  | nil => intro seen a; simp [dedupKeys]
  | cons k rest ih =>
    intro seen a
    by_cases hm : k ∈ seen
    · rw [dedupKeys, if_pos hm, ih seen a, List.mem_cons]
      constructor
      · rintro (h | h)
        · exact Or.inl h
        · exact Or.inr (Or.inr h)
      · rintro (h | h | h)
        · exact Or.inl h
        · exact Or.inl (h ▸ hm)
        · exact Or.inr h
    · rw [dedupKeys, if_neg hm, ih (seen ++ [k]) a]
      simp only [List.mem_append, List.mem_cons, List.mem_singleton, List.not_mem_nil]
      tauto

theorem updateLoop_ok_keys (e : Entry) (env : EntryEnv) (mt : MetricType) (elemID : Nat) :
    ∀ (ks : List AggregationKey) (acc : AggregationValues) (L : MetricLists)
      (res : AggregationValues) (L1 : MetricLists),
      updateLoop e env mt elemID ks acc L = (.ok res, L1) →
      res.map (fun v => v.key) = dedupKeys (acc.map (fun v => v.key)) ks := by
  intro ks
  induction ks with
  | nil =>
    intro acc L res L1 h
    simp only [updateLoop] at h
    rw [Prod.mk.injEq] at h
    obtain ⟨h1, -⟩ := h
    obtain rfl : acc = res := Except.ok.inj h1
    simp [dedupKeys]
  | cons k rest ih =>
    intro acc L res L1 h
    simp only [updateLoop] at h
    split at h
    · rename_i hc
      rw [ih _ _ _ _ h, dedupKeys, if_pos ((aggContains_iff _ _).mp hc)]
    · rename_i hc
      have hmem : k ∉ acc.map (fun v => v.key) := fun hm =>
        hc ((aggContains_iff _ _).mpr hm)
      rw [dedupKeys, if_neg hmem]
      split at h
      · rename_i idx hidx
        rw [ih _ _ _ _ h]
        congr 1
        have hk := (aggIndex_some_bounds e.aggregations k idx hidx).2
        simp only [List.map_append, List.map_cons, List.map_nil]
        rw [hk]
      · split at h
        · simp at h
        · split at h
          · simp at h
          · split at h
            · simp at h
            · split at h
              · simp at h
              · split at h
                · simp at h
                · rw [ih _ _ _ _ h]
                  congr 1
                  simp

theorem shouldUpdateScan_covers (aggs : AggregationValues) :
    ∀ (ks : List AggregationKey),
      (∀ k ∈ ks, aggIndex aggs k ≠ none) →
      ∃ idxs, shouldUpdateScan aggs ks = some idxs ∧
        ∀ k ∈ ks, ∀ i, aggIndex aggs k = some i → i ∈ idxs := by
  intro ks
  induction ks with
  | nil => intro _; exact ⟨[], rfl, by simp⟩
  | cons k rest ih =>
    intro hall
    rcases hk : aggIndex aggs k with _ | i
    · exact absurd hk (hall k (List.mem_cons_self k rest))
    · obtain ⟨idxs, hscan, hmem⟩ :=
        ih fun k2 hk2 => hall k2 (List.mem_cons_of_mem _ hk2)
      refine ⟨i :: idxs, ?_, ?_⟩
      · rw [shouldUpdateScan, hk, hscan]
      · intro k2 hk2 j hj
        rcases List.mem_cons.mp hk2 with h | h
        · subst h
          rw [hk] at hj
          obtain rfl : i = j := Option.some.inj hj
          exact List.mem_cons_self i idxs
        · exact List.mem_cons_of_mem _ (hmem k2 h j hj)

end Agg

end M3

/-- C8: After a successful `updateMetadatasWithLock` installs the
binding set derived from a staged metadata, a repeat
`shouldUpdateMetadatasWithLock` check against that same metadata finds
the same cutover and every derived aggregation key already present
covering all cached bindings, and answers false — so a second
`AddUntimed` with the same staged metadata takes the fast path and
performs no further metadata update. -/
theorem metadata_update_idempotent (e : M3.Agg.Entry) (env : M3.Agg.EntryEnv)
    (L : M3.Agg.MetricLists) (metric : M3.Agg.MetricUnion) (hdm : Bool)
    (sm : M3.Agg.StagedMetadata) (e' : M3.Agg.Entry) (L' : M3.Agg.MetricLists)
    (h : e.updateMetadatasWithLock env L metric hdm sm = (none, e', L')) :
    (e'.shouldUpdateMetadatasWithLock env sm).1 = false := by
  rcases hu : M3.Agg.updateLoop e env metric.type (e.maybeCopyIDWithLock L metric)
      (M3.Agg.derivedKeys env sm) [] L with ⟨r, L1⟩
  simp only [M3.Agg.Entry.updateMetadatasWithLock, hu] at h
  cases r with
  | error er => simp at h
  | ok newAggs =>
    rw [Prod.mk.injEq] at h
    obtain ⟨-, h2⟩ := h
    rw [Prod.mk.injEq] at h2
    obtain ⟨he, -⟩ := h2
    have hkeys : newAggs.map (fun v => v.key)
        = M3.Agg.dedupKeys [] (M3.Agg.derivedKeys env sm) := by
      simpa using M3.Agg.updateLoop_ok_keys e env metric.type
        (e.maybeCopyIDWithLock L metric) (M3.Agg.derivedKeys env sm) [] L newAggs L1 hu
    have hnd : (newAggs.map (fun v => v.key)).Nodup := by
      rw [hkeys]
      exact M3.Agg.dedupKeys_nodup _ [] List.nodup_nil
    have hmemiff : ∀ a, a ∈ newAggs.map (fun v => v.key) ↔ a ∈ M3.Agg.derivedKeys env sm := by
      intro a
      rw [hkeys, M3.Agg.dedupKeys_mem]
      simp
    obtain ⟨idxs, hscan, hmem⟩ := M3.Agg.shouldUpdateScan_covers newAggs
      (M3.Agg.derivedKeys env sm)
      (fun k hk => by
        rw [Ne, M3.Agg.aggIndex_eq_none_iff]
        exact fun hno => hno ((hmemiff k).mpr hk))
    have hcov : ∀ i, i < newAggs.length → i ∈ idxs := by
      intro i hi
      have hself : M3.Agg.aggIndex newAggs ((newAggs.getD i default).key) = some i :=
        M3.Agg.aggIndex_self_of_nodup newAggs hnd i hi
      have hkd : ((newAggs.getD i default).key) ∈ M3.Agg.derivedKeys env sm := by
        apply (hmemiff _).mp
        apply List.mem_map_of_mem
        rw [List.getD_eq_getElem newAggs _ hi]
        exact List.getElem_mem hi
      exact hmem _ hkd i hself
    rw [← he]
    simp only [M3.Agg.Entry.shouldUpdateMetadatasWithLock]
    rw [if_neg (lt_irrefl sm.cutoverNanos), if_neg (lt_irrefl sm.cutoverNanos)]
    rw [hscan]
    show (!decide (∀ i, i < List.length newAggs → i ∈ idxs)) = false
    rw [decide_eq_true hcov]
    rfl

/-- C8 witness: a successful update on a fresh entry makes the repeat
check answer false. -/
theorem metadata_update_idempotent_witness :
    ((M3.Wit.upd8.2.1).shouldUpdateMetadatasWithLock M3.Wit.envOk M3.Wit.sm0).1 = false :=
  metadata_update_idempotent M3.Agg.freshEntry M3.Wit.envOk M3.Wit.L0 M3.Wit.mCounter
    false M3.Wit.sm0 M3.Wit.upd8.2.1 M3.Wit.upd8.2.2 (by decide)

namespace M3

namespace Agg

theorem filter_key_eq_filter_pair {α β : Type} [DecidableEq α] [DecidableEq β]
    (k : α) (v : β) :
    ∀ (l : List (α × β)), (l.map Prod.fst).Nodup → l.lookup k = some v →
      l.filter (fun q => q.1 ≠ k) = l.filter (fun q => q ≠ (k, v)) := by
  intro l
  induction l with
  | nil => intro _ hl; simp [List.lookup] at hl
  | cons p rest ih =>
    intro hnd hl
    simp only [List.map_cons, List.nodup_cons] at hnd
    obtain ⟨hp, hrest⟩ := hnd
    rw [lookup_cons_eq] at hl
    by_cases hk : k = p.1
    · rw [if_pos hk] at hl
      have hv : p.2 = v := Option.some.inj hl
      have hpair : p = (k, v) := by
        rw [Prod.ext_iff]
        exact ⟨hk.symm, hv⟩
      have hall1 : rest.filter (fun q => decide (q.1 ≠ k)) = rest := by
        rw [List.filter_eq_self]
        intro q hq
        simp only [decide_eq_true_eq]
        intro hqk
        apply hp
        rw [← hk, ← hqk]
        exact List.mem_map_of_mem _ hq
      have hall2 : rest.filter (fun q => decide (q ≠ (k, v))) = rest := by
        rw [List.filter_eq_self]
        intro q hq
        simp only [decide_eq_true_eq]
        intro hqkv
        apply hp
        rw [← hk, show k = q.1 from by rw [hqkv]]
        exact List.mem_map_of_mem _ hq
      rw [List.filter_cons, List.filter_cons, hall1, hall2, hpair]
      simp
    · rw [if_neg hk] at hl
      have hkeep1 : (decide (p.1 ≠ k)) = true := by
        simp only [decide_eq_true_eq]
        exact fun he => hk he.symm
      have hkeep2 : (decide (p ≠ (k, v))) = true := by
        simp only [decide_eq_true_eq]
        intro he
        exact hk (by rw [he])
      rw [List.filter_cons, List.filter_cons, hkeep1, hkeep2]
      simp only [if_true]
      rw [ih hrest hl]

theorem nodup_filter_keys {α β : Type} [DecidableEq α] (l : List (α × β))
    (p : α × β → Bool) (h : (l.map Prod.fst).Nodup) :
    ((l.filter p).map Prod.fst).Nodup :=
  h.sublist (List.Sublist.map Prod.fst (List.filter_sublist l))

theorem purgeStep_inv (s : MapState) (env : EntryEnv) (now : Int) (p : EntryKey × Nat)
    (h1 : s.entries = s.entryList) (h2 : (s.entries.map Prod.fst).Nodup) :
    (s.purgeStep env now p).entries = (s.purgeStep env now p).entryList ∧
      ((s.purgeStep env now p).entries.map Prod.fst).Nodup := by
  simp only [MapState.purgeStep]
  split
  · split
    · rename_i elemId hl
      constructor
      · show s.entries.filter (fun q => q.1 ≠ p.1)
          = s.entryList.filter (fun q => q ≠ (p.1, elemId))
        rw [← h1]
        exact filter_key_eq_filter_pair p.1 elemId s.entries h2 hl
      · exact nodup_filter_keys s.entries _ h2
    · exact ⟨h1, h2⟩
  · exact ⟨h1, h2⟩

theorem foldl_purge_inv (env : EntryEnv) (now : Int) :
    ∀ (ps : List (EntryKey × Nat)) (s : MapState),
      s.entries = s.entryList → (s.entries.map Prod.fst).Nodup →
      (ps.foldl (fun acc q => acc.purgeStep env now q) s).entries
          = (ps.foldl (fun acc q => acc.purgeStep env now q) s).entryList ∧
        ((ps.foldl (fun acc q => acc.purgeStep env now q) s).entries.map Prod.fst).Nodup := by
  intro ps
  induction ps with
  | nil => intro s h1 h2; exact ⟨h1, h2⟩
  | cons q rest ih =>
    intro s h1 h2
    obtain ⟨h1s, h2s⟩ := purgeStep_inv s env now q h1 h2
    exact ih _ h1s h2s

end Agg

end M3

namespace M3

namespace Agg

theorem applyNewMetricRateLimit_entryList (s : MapState) (now fi : Int) :
    ((s.applyNewMetricRateLimitWithLock now fi).2).entryList = s.entryList := by
  simp only [MapState.applyNewMetricRateLimitWithLock]
  split
  · rfl
  · split
    · rfl
    · split <;> rfl

theorem findOrCreate_inv (s : MapState) (key : EntryKey) (now : Int)
    (h1 : s.entries = s.entryList) (h2 : (s.entries.map Prod.fst).Nodup) :
    ((s.findOrCreate key now).2).entries = ((s.findOrCreate key now).2).entryList ∧
      (((s.findOrCreate key now).2).entries.map Prod.fst).Nodup := by
  simp only [MapState.findOrCreate]
  split
  · exact ⟨h1, h2⟩
  · split
    · exact ⟨h1, h2⟩
    · rename_i hl
      split
      · rename_i err s2 heq
        have hpre := applyNewMetricRateLimit_entries_heap { s with firstInsertAtNanos := some (s.firstInsertAtNanos.getD now) } now (s.firstInsertAtNanos.getD now)
        have hpl := applyNewMetricRateLimit_entryList { s with firstInsertAtNanos := some (s.firstInsertAtNanos.getD now) } now (s.firstInsertAtNanos.getD now)
        rw [heq] at hpre hpl
        constructor
        · rw [hpre.1, hpl]
          exact h1
        · rw [hpre.1]
          exact h2
      · rename_i s2 heq
        have hpre := applyNewMetricRateLimit_entries_heap { s with firstInsertAtNanos := some (s.firstInsertAtNanos.getD now) } now (s.firstInsertAtNanos.getD now)
        have hpl := applyNewMetricRateLimit_entryList { s with firstInsertAtNanos := some (s.firstInsertAtNanos.getD now) } now (s.firstInsertAtNanos.getD now)
        rw [heq] at hpre hpl
        have hse : s2.entries = s.entries := hpre.1
        have hsl : s2.entryList = s.entryList := hpl
        constructor
        · show s2.entries ++ [(key, s2.nextEntryId)] = s2.entryList ++ [(key, s2.nextEntryId)]
          rw [hse, hsl, h1]
        · show ((s2.entries ++ [(key, s2.nextEntryId)]).map Prod.fst).Nodup
          rw [hse]
          have hnotin : key ∉ s.entries.map Prod.fst := (lookup_eq_none_iff _ _).mp hl
          simp only [List.map_append, List.map_cons, List.map_nil]
          rw [List.nodup_append]
          refine ⟨h2, List.nodup_singleton key, ?_⟩
          intro a ha hak
          rw [List.mem_singleton] at hak
          exact hnotin (hak ▸ ha)

theorem mapAddUntimed_inv (s : MapState) (env : EntryEnv) (now : Int)
    (metric : MetricUnion) (mds : StagedMetadatas)
    (h1 : s.entries = s.entryList) (h2 : (s.entries.map Prod.fst).Nodup) :
    ((s.AddUntimed env now metric mds).2).entries
        = ((s.AddUntimed env now metric mds).2).entryList ∧
      (((s.AddUntimed env now metric mds).2).entries.map Prod.fst).Nodup := by
  have hfc := findOrCreate_inv s (entryKeyOf metric) now h1 h2
  simp only [MapState.AddUntimed]
  split
  · rename_i err s1 heq
    rw [heq] at hfc
    exact hfc
  · rename_i id s1 heq
    rw [heq] at hfc
    exact hfc

theorem resetMapRateLimiter_lists (s : MapState) (now : Int) (ropts : RuntimeOpts) :
    ((s.resetRateLimiterWithLock now ropts)).entries = s.entries ∧
      ((s.resetRateLimiterWithLock now ropts)).entryList = s.entryList := by
  simp only [MapState.resetRateLimiterWithLock]
  split
  · exact ⟨rfl, rfl⟩
  · split <;> exact ⟨rfl, rfl⟩

theorem setRuntimeOptions_inv (s : MapState) (now : Int) (ropts : RuntimeOpts)
    (h1 : s.entries = s.entryList) (h2 : (s.entries.map Prod.fst).Nodup) :
    ((s.SetRuntimeOptions now ropts)).entries = ((s.SetRuntimeOptions now ropts)).entryList ∧
      (((s.SetRuntimeOptions now ropts)).entries.map Prod.fst).Nodup := by
  have hr := resetMapRateLimiter_lists { s with runtimeOpts := ropts } now ropts
  simp only [MapState.SetRuntimeOptions]
  constructor
  · show ((({ s with runtimeOpts := ropts } : MapState).resetRateLimiterWithLock now ropts)).entries
      = ((({ s with runtimeOpts := ropts } : MapState).resetRateLimiterWithLock now ropts)).entryList
    rw [hr.1, hr.2]
    exact h1
  · show ((((({ s with runtimeOpts := ropts } : MapState).resetRateLimiterWithLock now ropts)).entries).map Prod.fst).Nodup
    rw [hr.1]
    exact h2

theorem step_inv (s : MapState) (env : EntryEnv) (op : MapOp)
    (h1 : s.entries = s.entryList) (h2 : (s.entries.map Prod.fst).Nodup) :
    ((s.step env op)).entries = ((s.step env op)).entryList ∧
      (((s.step env op)).entries.map Prod.fst).Nodup := by
  cases op with
  | addUntimed now metric mds => exact mapAddUntimed_inv s env now metric mds h1 h2
  | tick now =>
    exact foldl_purge_inv env now
      (s.entryList.filter fun p => (heapGetEntry s.heap p.2).ShouldExpire env now) s h1 h2
  | setRuntimeOptions now ropts => exact setRuntimeOptions_inv s now ropts h1 h2
  | close =>
    simp only [MapState.step, MapState.Close]
    split
    · exact ⟨h1, h2⟩
    · exact ⟨h1, h2⟩

theorem runMapOps_inv (env : EntryEnv) :
    ∀ (ops : List MapOp) (s : MapState),
      s.entries = s.entryList → (s.entries.map Prod.fst).Nodup →
      ((ops.foldl (fun t op => t.step env op) s)).entries
          = ((ops.foldl (fun t op => t.step env op) s)).entryList ∧
        (((ops.foldl (fun t op => t.step env op) s)).entries.map Prod.fst).Nodup := by
  intro ops
  induction ops with
  | nil => intro s h1 h2; exact ⟨h1, h2⟩
  | cons op rest ih =>
    intro s h1 h2
    obtain ⟨h1s, h2s⟩ := step_inv s env op h1 h2
    exact ih _ h1s h2s

theorem initialMapState_inv (ropts : RuntimeOpts) (now : Int) :
    (initialMapState ropts now).entries = (initialMapState ropts now).entryList ∧
      ((initialMapState ropts now).entries.map Prod.fst).Nodup := by
  have hr := resetMapRateLimiter_lists
    { closed := false, entries := [], entryList := [], heap := [], nextEntryId := 0
      lists := { closed := false, lists := [], elemHeap := [], nextElemId := 0 }
      firstInsertAtNanos := none, rateLimiter := none, runtimeOpts := ropts
      metrics := { newEntries := 0, noRateLimitWarmup := 0
                   newMetricRateLimitExceeded := 0, droppedNewMetrics := 0 } } now ropts
  simp only [initialMapState]
  rw [hr.1, hr.2]
  exact ⟨rfl, List.nodup_nil⟩

end Agg

end M3

/-- C3: For every sequence of Shard Entry Map operations (`AddUntimed`
inserting via `findOrCreate`, `Tick` expiring via `purgeExpired`,
runtime-option updates and close), the set of keys in the entries map
equals the set of entries in the ordered entry list and
`|map| = |list|`: every insertion adds the pair to both under the
exclusive lock, and every successful expiration removes it from both
under the exclusive lock. -/
theorem sem_map_list_no_leak (env : M3.Agg.EntryEnv) (ropts : M3.Agg.RuntimeOpts)
    (startNow : Int) (ops : List M3.Agg.MapOp) :
    (M3.Agg.runMapOps env ropts startNow ops).entries.length
        = (M3.Agg.runMapOps env ropts startNow ops).entryList.length ∧
      ∀ k, k ∈ (M3.Agg.runMapOps env ropts startNow ops).entries.map Prod.fst
        ↔ k ∈ (M3.Agg.runMapOps env ropts startNow ops).entryList.map Prod.fst := by
  obtain ⟨hinit1, hinit2⟩ := M3.Agg.initialMapState_inv ropts startNow
  obtain ⟨he, -⟩ := M3.Agg.runMapOps_inv env ops
    (M3.Agg.initialMapState ropts startNow) hinit1 hinit2
  rw [M3.Agg.runMapOps]
  rw [he]
  exact ⟨rfl, fun k => Iff.rfl⟩
